import Mathlib

/-!
Verification development for the combat-log parser
(src/ui/core/proto_utils/logs_parser.tsx).

The TypeScript classes are embedded as Lean structures and an inductive
tagged union; numbers scraped from log text are modelled as rationals
(the source uses JS doubles, but every operation the parser performs on
them — parsing decimal literals, comparison, addition, subtraction and
division by small constants — is exact on the inputs of interest).
Stateful loops become folds or structural recursions; the asynchronous
identity-resolution boundary (ActionId.fromLogString(..).fill(..), whose
implementation lives outside this repository) is modelled as an explicit
resolver function parameter, and the positional join performed by
Promise.all becomes an index-keyed pure map.
-/

/-- A participant reference, from class Entity. -/
structure Entity where
  name : String
  ownerName : String
  index : Int
  isTarget : Bool
  isPet : Bool
deriving DecidableEq

/-- Entity.equals: structural equality over the four discriminating
fields; ownerName is not compared. -/
def Entity.equals (a b : Entity) : Bool :=
  a.isTarget == b.isTarget && a.isPet == b.isPet && a.index == b.index && a.name == b.name

/-- Modelled from the spec: the opaque action identifier produced by the
identity-resolution service (action_id.js is not part of the sources
under verification).  Per the interface contract it supports exact
equality, tag-insensitive equality, a canonical key including the tag
(toString) and one ignoring it (toStringIgnoringTag), and carries a
numeric spell id used by the cast-bucketing special cases. -/
structure ActionId where
  spellId : Nat
  tag : Int
  name : String
deriving DecidableEq

instance : Inhabited ActionId := ⟨⟨0, 0, ""⟩⟩

/-- ActionId.equals: identity including the tag. -/
def ActionId.equals (a b : ActionId) : Bool :=
  a.spellId == b.spellId && a.tag == b.tag

/-- ActionId.equalsIgnoringTag. -/
def ActionId.equalsIgnoringTag (a b : ActionId) : Bool :=
  a.spellId == b.spellId

/-- The bucket key space for CastLog.fromLogs: the source keys a record
by actionId.toString() resp. actionId.toStringIgnoringTag(); the two
canonical strings are modelled by the two sides of a sum. -/
def ActionId.keyWithTag (a : ActionId) : Nat × Int := (a.spellId, a.tag)

/-- Models toStringIgnoringTag as a canonical key. -/
def ActionId.keyIgnoringTag (a : ActionId) : Nat := a.spellId

/-- The common event header, interface SimLogParams. -/
structure SimLogParams where
  raw : String
  logIndex : Nat
  timestamp : Rat
  source : Option Entity
  target : Option Entity
  actionId : Option ActionId
  spellSchool : Option Int
  threat : Rat
deriving DecidableEq

/-- class DamageDealtLog (data fields; the derived field hit is a
definition below, as the constructor computes it from miss and crit). -/
structure DamageDealtLog where
  params : SimLogParams
  amount : Rat
  type : String
  miss : Bool
  crit : Bool
  crush : Bool
  glance : Bool
  dodge : Bool
  parry : Bool
  block : Bool
  tick : Bool
  partialResist1_4 : Bool
  partialResist2_4 : Bool
  partialResist3_4 : Bool
deriving DecidableEq

/-- this.hit = !miss && !crit. -/
def DamageDealtLog.hit (l : DamageDealtLog) : Bool := !l.miss && !l.crit

/-- class ResourceChangedLog.  resourceType and secondaryResourceType
are protobuf enums (proto/spell is outside the sources under
verification); they are modelled as bare naturals. -/
structure ResourceChangedLog where
  params : SimLogParams
  resourceType : Nat
  valueBefore : Rat
  valueAfter : Rat
  isSpend : Bool
  total : Rat
  secondaryResourceType : Option Nat
deriving DecidableEq

/-- class AuraEventLog. -/
structure AuraEventLog where
  params : SimLogParams
  isGained : Bool
  isFaded : Bool
  isRefreshed : Bool
deriving DecidableEq

/-- class AuraStacksChangeLog. -/
structure AuraStacksChangeLog where
  params : SimLogParams
  oldStacks : Int
  newStacks : Int
deriving DecidableEq

/-- class CastBeganLog. -/
structure CastBeganLog where
  params : SimLogParams
  manaCost : Rat
  castTime : Rat
  effectiveTime : Rat
deriving DecidableEq

/-- class CastCompletedLog. -/
structure CastCompletedLog where
  params : SimLogParams
deriving DecidableEq

/-- class StatChangeLog. -/
structure StatChangeLog where
  params : SimLogParams
  isGain : Bool
  stats : String
deriving DecidableEq

/-- The event stream element: the SimLog class hierarchy as a closed
tagged union.  The generic variant is a plain `new SimLog(params)`. -/
inductive SimLog where
  | generic (params : SimLogParams)
  | damageDealt (log : DamageDealtLog)
  | resourceChanged (log : ResourceChangedLog)
  | auraEvent (log : AuraEventLog)
  | auraStacksChange (log : AuraStacksChangeLog)
  | majorCooldownUsed (params : SimLogParams)
  | castBegan (log : CastBeganLog)
  | castCompleted (log : CastCompletedLog)
  | statChange (log : StatChangeLog)
deriving DecidableEq

/-- The header of any event. -/
def SimLog.params : SimLog → SimLogParams
  | .generic p => p
  | .damageDealt l => l.params
  | .resourceChanged l => l.params
  | .auraEvent l => l.params
  | .auraStacksChange l => l.params
  | .majorCooldownUsed p => p
  | .castBegan l => l.params
  | .castCompleted l => l.params
  | .statChange l => l.params

/-- log.isDamageDealt() as a partial projection (downstream code uses
the type guard only to filter, so the projection form is equivalent). -/
def SimLog.asDamageDealt : SimLog → Option DamageDealtLog
  | .damageDealt l => some l
  | _ => none

/-- log.isResourceChanged() as a partial projection. -/
def SimLog.asResourceChanged : SimLog → Option ResourceChangedLog
  | .resourceChanged l => some l
  | _ => none

/-- log.isCastBegan() as a partial projection. -/
def SimLog.asCastBegan : SimLog → Option CastBeganLog
  | .castBegan l => some l
  | _ => none

/-- log.isCastCompleted() as a partial projection. -/
def SimLog.asCastCompleted : SimLog → Option CastCompletedLog
  | .castCompleted l => some l
  | _ => none

/-- SimLog.groupDuplicateTimestamps: the running fold that groups
consecutive events whose timestamp equals the first of the current
group.  Generic over the element type, as in the source. -/
def groupDuplicateTimestampsGo {α : Type} (ts : α → Rat) :
    List α → List α → List (List α) → List (List α)
  | [], curGroup, grouped =>
      if curGroup.isEmpty then grouped else grouped ++ [curGroup]
  | log :: rest, curGroup, grouped =>
      if curGroup.isEmpty || ts log == ts (curGroup.headD log) then
        groupDuplicateTimestampsGo ts rest (curGroup ++ [log]) grouped
      else
        groupDuplicateTimestampsGo ts rest [log] (grouped ++ [curGroup])

/-- static SimLog.groupDuplicateTimestamps. -/
def SimLog.groupDuplicateTimestamps {α : Type} (ts : α → Rat) (logs : List α) :
    List (List α) :=
  groupDuplicateTimestampsGo ts logs [] []

/-! ## Character-level parsing helpers

Each JavaScript regular expression used by the classifier is translated
into a recursive-descent matcher over the line's character list,
reproducing the regex engine's leftmost-match search, ordered
alternation, and lazy/greedy capture behaviour for that particular
pattern. -/

/-- Match a literal, returning the rest of the input. -/
def expectLit : List Char → List Char → Option (List Char)
  | [], s => some s
  | c :: cs, x :: xs => if x = c then expectLit cs xs else none
  | _ :: _, [] => none

/-- Split a run of ASCII digits off the front. -/
def takeDigits (s : List Char) : List Char × List Char :=
  (s.takeWhile Char.isDigit, s.dropWhile Char.isDigit)

/-- Digit characters to a natural number. -/
def digitsToNat (ds : List Char) : Nat :=
  ds.foldl (fun n c => 10 * n + (c.toNat - 48)) 0

/-- The rational value of a decimal literal: integer part, fractional
digits, optional sign (the value parseFloat would produce; exact, since
the inputs are short decimal strings). -/
def ratOfParts (neg : Bool) (ip : Nat) (frDigits : List Char) : Rat :=
  let v : Rat := (ip : Rat) + (digitsToNat frDigits : Rat) / (10 : Rat) ^ frDigits.length
  if neg then -v else v

/-- Pattern -?[0-9]+[.][0-9]+ at the current position. -/
def parseSignedDecimal (s : List Char) : Option (Rat × List Char) :=
  let negAndRest : Bool × List Char :=
    match s with
    | '-' :: rest => (true, rest)
    | _ => (false, s)
  let (d1, r1) := takeDigits negAndRest.2
  if d1.isEmpty then none
  else
    match r1 with
    | '.' :: r2 =>
        let (d2, r3) := takeDigits r2
        if d2.isEmpty then none
        else some (ratOfParts negAndRest.1 (digitsToNat d1) d2, r3)
    | _ => none

/-- Pattern [0-9]+[.][0-9]+ (unsigned) at the current position. -/
def parseDecimalPlain (s : List Char) : Option (Rat × List Char) :=
  let (d1, r1) := takeDigits s
  if d1.isEmpty then none
  else
    match r1 with
    | '.' :: r2 =>
        let (d2, r3) := takeDigits r2
        if d2.isEmpty then none
        else some (ratOfParts false (digitsToNat d1) d2, r3)
    | _ => none

/-- Pattern [0-9]+[.]?[0-9]* at the current position. -/
def parseNumFlex (s : List Char) : Option (Rat × List Char) :=
  let (d1, r1) := takeDigits s
  if d1.isEmpty then none
  else
    match r1 with
    | '.' :: r2 =>
        let (d2, r3) := takeDigits r2
        some (ratOfParts false (digitsToNat d1) d2, r3)
    | _ => some (ratOfParts false (digitsToNat d1) [], r1)

/-- Pattern -?[0-9]+ at the current position. -/
def parseSignedInt (s : List Char) : Option (Int × List Char) :=
  let negAndRest : Bool × List Char :=
    match s with
    | '-' :: rest => (true, rest)
    | _ => (false, s)
  let (d1, r1) := takeDigits negAndRest.2
  if d1.isEmpty then none
  else some (if negAndRest.1 then -(digitsToNat d1 : Int) else (digitsToNat d1 : Int), r1)

/-- Unanchored search: try the matcher at every start position, leftmost
match wins (the semantics of String.prototype.match without anchors). -/
def searchMap {β : Type} (f : List Char → Option β) : List Char → Option β
  | [] => f []
  | c :: cs =>
      match f (c :: cs) with
      | some b => some b
      | none => searchMap f cs

/-- Like searchMap, but also returns the text before the match (used for
the Threat suffix, which the classifier truncates at match.index). -/
def searchSplit {β : Type} (f : List Char → Option β) : List Char → Option (List Char × β)
  | [] => (f []).map (fun b => (([] : List Char), b))
  | c :: cs =>
      match f (c :: cs) with
      | some b => some (([] : List Char), b)
      | none => (searchSplit f cs).map (fun p => (c :: p.1, p.2))

/-- JS whitespace class (the subset that can occur in a log line). -/
def isSpaceChar (c : Char) : Bool :=
  c = ' ' || c = '\t' || c = '\n' || c = '\r'

/-- JS word class for the timestamp regex tail. -/
def isWordChar (c : Char) : Bool := c.isAlphanum || c = '_'

/-- Pattern [(]SpellSchool: (-?[0-9]+)[)] preceded by a space, at the
current position. -/
def spellSchoolAt (s : List Char) : Option Int := do
  let r ← expectLit " (SpellSchool: ".data s
  let (v, r1) ← parseSignedInt r
  let _ ← expectLit ")".data r1
  pure v

/-- The SpellSchool suffix search over the whole line. -/
def spellSchoolSearch (s : List Char) : Option Int := searchMap spellSchoolAt s

/-- Pattern [(]Threat: (-?[0-9]+[.][0-9]+)[)] preceded by a space. -/
def threatAt (s : List Char) : Option Rat := do
  let r ← expectLit " (Threat: ".data s
  let (v, r1) ← parseSignedDecimal r
  let _ ← expectLit ")".data r1
  pure v

/-- The Threat suffix search; returns the prefix before the match. -/
def threatSearch (s : List Char) : Option (List Char × Rat) := searchSplit threatAt s

/-- The leading-timestamp pattern at one position: a bracketed signed
decimal, then word characters, then the captured remainder. -/
def timestampAt (s : List Char) : Option (Rat × List Char) := do
  let r ← expectLit "[".data s
  let (v, r1) ← parseSignedDecimal r
  let r2 ← expectLit "]".data r1
  pure (v, r2.dropWhile isWordChar)

/-- The (unanchored) timestamp search used by SimLog.parseAll. -/
def timestampSearch (s : List Char) : Option (Rat × List Char) := searchMap timestampAt s

/-! ## Entity.parseAll -/

/-- Character class [a-zA-Z0-9]. -/
def entityNameClass (c : Char) : Bool := c.isAlphanum

/-- Character class for pet names. -/
def petNameClass (c : Char) : Bool :=
  c.isAlphanum || isSpaceChar c || c = ':' || c = ','

/-- Character class for player names. -/
def playerNameClass (c : Char) : Bool := c.isAlphanum || isSpaceChar c

/-- First alternative: Target N (the captured name is the whole
alternative text, as in the source, which passes match[1] as the name). -/
def entityAlt1 (s : List Char) : Option (Entity × List Char) := do
  let r ← expectLit "Target ".data s
  let (ds, r1) := takeDigits r
  if ds.isEmpty then none
  else do
    let r2 ← expectLit "]".data r1
    pure (⟨"Target " ++ ds.asString, "", (digitsToNat ds : Int) - 1, true, false⟩, r2)

/-- Second alternative: Owner (#N) - PetName. -/
def entityAlt2 (s : List Char) : Option (Entity × List Char) :=
  let owner := s.takeWhile entityNameClass
  let r1 := s.dropWhile entityNameClass
  if owner.isEmpty then none
  else do
    let r2 ← expectLit " (#".data r1
    let (ds, r3) := takeDigits r2
    if ds.isEmpty then none
    else do
      let r4 ← expectLit ") - ".data r3
      let pet := r4.takeWhile petNameClass
      let r5 := r4.dropWhile petNameClass
      if pet.isEmpty then none
      else do
        let r6 ← expectLit "]".data r5
        pure (⟨pet.asString, owner.asString, (digitsToNat ds : Int) - 1, false, true⟩, r6)

/-- Third alternative with the regex engine's greedy backtracking on the
name: longest name first. -/
def entityAlt3Go (w : List Char) (tail : List Char) : Nat → Option (Entity × List Char)
  | 0 => none
  | k + 1 =>
      let attempt : Option (Entity × List Char) := do
        let r1 ← expectLit " (#".data (w.drop (k + 1) ++ tail)
        let (ds, r2) := takeDigits r1
        if ds.isEmpty then none
        else do
          let r3 ← expectLit ")]".data r2
          pure (⟨(w.take (k + 1)).asString, "", (digitsToNat ds : Int) - 1, false, false⟩, r3)
      match attempt with
      | some e => some e
      | none => entityAlt3Go w tail k

/-- Third alternative: Name (#N). -/
def entityAlt3 (s : List Char) : Option (Entity × List Char) :=
  let w := s.takeWhile playerNameClass
  entityAlt3Go w (s.dropWhile playerNameClass) w.length

/-- One bracketed entity label at the current position, alternatives in
the regex's order. -/
def entityMatchAt : List Char → Option (Entity × List Char)
  | '[' :: r =>
      match entityAlt1 r with
      | some e => some e
      | none =>
          match entityAlt2 r with
          | some e => some e
          | none => entityAlt3 r
  | _ => none

/-- The matchAll scan: non-overlapping matches, left to right.  Fuel is
the remaining length; every successful match consumes at least one
character, so the initial fuel suffices. -/
def entityScan : Nat → List Char → List Entity
  | 0, _ => []
  | _ + 1, [] => []
  | fuel + 1, c :: cs =>
      match entityMatchAt (c :: cs) with
      | some (e, rest) => e :: entityScan fuel rest
      | none => entityScan fuel cs

/-- static Entity.parseAll. -/
def Entity.parseAll (s : List Char) : List Entity := entityScan s.length s

/-! ## The kind-specific line parsers -/

/-- Modelled from the spec: the asynchronous identity-resolution adapter
(ActionId.fromLogString(label).fill(sourceIndex), implemented outside
this repository).  A failing resolution leaves the identifier absent, so
the adapter is a total function into Option. -/
abbrev Resolver := String → Option Int → Option ActionId

/-- Modelled from the spec: stringToResourceType from names.js (outside
this repository): maps a resource-name string to the (resourceType,
optional secondary type) pair. -/
abbrev ResourceNamer := String → Nat × Option Nat

/-- The ordered alternation of hit-result words in the DamageDealt
pattern (the regex's alternative order). -/
def ddResultWords : List String :=
  ["Miss", "Hit", "CriticalBlock", "Crit", "Crush", "GlanceBlock", "Glance", "Dodge", "Parry", "Block"]

/-- Try each result word in order. -/
def ddAltGo : List String → List Char → Option (String × List Char)
  | [], _ => none
  | w :: ws, s =>
      match expectLit w.data s with
      | some r => some (w, r)
      | none => ddAltGo ws s

/-- The result-word alternation. -/
def ddAlt (s : List Char) : Option (String × List Char) := ddAltGo ddResultWords s

/-- Optional resist annotation ([(](digits)% Resist[)] preceded by a
space); returns the captured digits. -/
def ddResist (s : List Char) : Option (List Char × List Char) := do
  let r ← expectLit " (".data s
  let (ds, r1) := takeDigits r
  if ds.isEmpty then none
  else do
    let r2 ← expectLit "% Resist)".data r1
    pure (ds, r2)

/-- Optional amount group: for (digits.digits) (damage|healing|shielding). -/
def ddForAmount (s : List Char) : Option (Rat × String) := do
  let r ← expectLit " for ".data s
  let (v, r1) ← parseDecimalPlain r
  let r2 ← expectLit " ".data r1
  match expectLit "damage".data r2 with
  | some _ => pure (v, "damage")
  | none =>
      match expectLit "healing".data r2 with
      | some _ => pure (v, "healing")
      | none =>
          match expectLit "shielding".data r2 with
          | some _ => pure (v, "shielding")
          | none => none

/-- The data captured by the DamageDealt pattern after the cause label. -/
structure DdTailData where
  tick : Bool
  word : String
  resist : Option (List Char)
  amount : Rat
  type : String
deriving DecidableEq

/-- The DamageDealt pattern after the space that ends the cause capture:
optional tick marker (greedy, with the regex's fallback to the
un-ticked reading), result-word alternation, optional resist and amount
groups (absent when they fail to match, as for trailing optional regex
groups). -/
def ddTail (s : List Char) : Option DdTailData :=
  let withTick : Option (Bool × String × List Char) :=
    match expectLit "tick ".data s with
    | some r =>
        match ddAlt r with
        | some (w, rest) => some (true, w, rest)
        | none => none
    | none => none
  let base : Option (Bool × String × List Char) :=
    match withTick with
    | some x => some x
    | none =>
        match ddAlt s with
        | some (w, rest) => some (false, w, rest)
        | none => none
  match base with
  | none => none
  | some (tk, w, rest) =>
      let resistAndRest : Option (List Char) × List Char :=
        match ddResist rest with
        | some (ds, r) => (some ds, r)
        | none => (none, rest)
      let amountAndType : Rat × String :=
        match ddForAmount resistAndRest.2 with
        | some (v, t) => (v, t)
        | none => (0, "")
      some ⟨tk, w, resistAndRest.1, amountAndType.1, amountAndType.2⟩

/-- Lazy cause capture: the shortest cause (accumulated reversed) whose
following space leads to a matching tail. -/
def ddLazy (cause : List Char) : List Char → Option (List Char × DdTailData)
  | [] => none
  | c :: cs =>
      if c = ' ' then
        match ddTail cs with
        | some info => some (cause.reverse, info)
        | none => ddLazy (c :: cause) cs
      else ddLazy (c :: cause) cs

/-- Leftmost search for the DamageDealt pattern: a literal bracket-space
pair, then the lazy cause, then the tail. -/
def ddSearch : List Char → Option (List Char × DdTailData)
  | [] => none
  | c :: cs =>
      match
        (if c = ']' then
          match cs with
          | ' ' :: r => ddLazy [] r
          | _ => none
        else none) with
      | some m => some m
      | none => ddSearch cs

/-- static DamageDealtLog.parse. -/
def DamageDealtLog.parse (rv : Resolver) (params : SimLogParams) : Option SimLog :=
  match ddSearch params.raw.data with
  | none => none
  | some (cause, t) =>
      some (.damageDealt
        { params := { params with actionId := rv cause.asString (params.source.map (fun e => e.index)) }
          amount := t.amount
          type := t.type
          miss := t.word == "Miss"
          crit := t.word == "Crit" || t.word == "CriticalBlock"
          crush := t.word == "Crush"
          glance := t.word == "Glance" || t.word == "GlanceBlock"
          dodge := t.word == "Dodge"
          parry := t.word == "Parry"
          block := t.word == "Block" || t.word == "CriticalBlock" || t.word == "GlanceBlock"
          tick := t.tick
          partialResist1_4 := t.resist == some "10".data
          partialResist2_4 := t.resist == some "20".data
          partialResist3_4 := t.resist == some "30".data })

/-- The data captured by the ResourceChanged pattern. -/
structure RcMatchData where
  isSpend : Bool
  resourceName : List Char
  cause : List Char
  valueBefore : Rat
  valueAfter : Rat
  total : Rat
deriving DecidableEq

/-- The parenthesised before/after part of the ResourceChanged pattern,
with its optional total group. -/
def rcParen (s : List Char) : Option (Rat × Rat × Rat) := do
  let r ← expectLit "(".data s
  let (v1, r1) ← parseNumFlex r
  let r2 ← expectLit " --> ".data r1
  let (v2, r3) ← parseNumFlex r2
  let r4 ← expectLit ")".data r3
  let total : Rat :=
    match (do
      let r5 ← expectLit " of ".data r4
      let (t, r6) ← parseNumFlex r5
      let _ ← expectLit " total".data r6
      pure t : Option Rat) with
    | some t => t
    | none => 0
  pure (v1, v2, total)

/-- Lazy cause capture for the ResourceChanged pattern. -/
def rcCauseLazy (cause : List Char) : List Char → Option (List Char × Rat × Rat × Rat)
  | [] => none
  | c :: cs =>
      if c = ' ' then
        match rcParen cs with
        | some (v1, v2, t) => some (cause.reverse, v1, v2, t)
        | none => rcCauseLazy (c :: cause) cs
      else rcCauseLazy (c :: cause) cs

/-- Lazy resource-name capture: nonspace, at least one more character
(lazy), nonspace, then the literal from-separator and the cause. -/
def rcNameLazy (first : Char) (middleRev : List Char) :
    List Char → Option (RcMatchData)
  | [] => none
  | c :: cs =>
      let attempt : Option RcMatchData :=
        if middleRev.isEmpty || isSpaceChar c then none
        else
          match expectLit " from ".data cs with
          | some r =>
              match rcCauseLazy [] r with
              | some (cause, v1, v2, t) =>
                  some ⟨false, first :: middleRev.reverse ++ [c], cause, v1, v2, t⟩
              | none => none
          | none => none
      match attempt with
      | some m => some m
      | none => rcNameLazy first (c :: middleRev) cs

/-- The ResourceChanged pattern at one position: verb, skipped delta
number, resource name, cause, before/after values, optional total. -/
def rcAt (s : List Char) : Option RcMatchData := do
  let verbAndRest : Bool × List Char ←
    match expectLit "Gained ".data s with
    | some r => some (false, r)
    | none =>
        match expectLit "Spent ".data s with
        | some r => some (true, r)
        | none => none
  let (_, r1) ← parseNumFlex verbAndRest.2
  match r1 with
  | [] => none
  | c :: cs =>
      if c = ' ' then
        match cs with
        | [] => none
        | c2 :: cs2 =>
            if isSpaceChar c2 then none
            else (rcNameLazy c2 [] cs2).map (fun m => { m with isSpend := verbAndRest.1 })
      else none

/-- static ResourceChangedLog.parse. -/
def ResourceChangedLog.parse (rv : Resolver) (s2rt : ResourceNamer) (params : SimLogParams) :
    Option SimLog :=
  match searchMap rcAt params.raw.data with
  | none => none
  | some m =>
      let rt := s2rt m.resourceName.asString
      some (.resourceChanged
        { params := { params with actionId := rv m.cause.asString (params.source.map (fun e => e.index)) }
          resourceType := rt.1
          valueBefore := m.valueBefore
          valueAfter := m.valueAfter
          isSpend := m.isSpend
          total := m.total
          secondaryResourceType := rt.2 })

/-- The AuraEvent pattern at one position. -/
def aeAt (s : List Char) : Option (String × List Char) := do
  let r ← expectLit "Aura ".data s
  match expectLit "gained: ".data r with
  | some rest => pure ("gained", rest)
  | none =>
      match expectLit "faded: ".data r with
      | some rest => pure ("faded", rest)
      | none =>
          match expectLit "refreshed: ".data r with
          | some rest => pure ("refreshed", rest)
          | none => none

/-- static AuraEventLog.parse (the captured label must be nonempty: the
source checks the truthiness of match[5]). -/
def AuraEventLog.parse (rv : Resolver) (params : SimLogParams) : Option SimLog :=
  match searchMap aeAt params.raw.data with
  | none => none
  | some (event, label) =>
      if label.isEmpty then none
      else
        some (.auraEvent
          { params := { params with actionId := rv label.asString (params.source.map (fun e => e.index)) }
            isGained := event == "gained"
            isFaded := event == "faded"
            isRefreshed := event == "refreshed" })

/-- The stacks tail of the AuraStacksChange pattern at one position. -/
def ascTail (s : List Char) : Option (Int × Int) := do
  let r ← expectLit " stacks: ".data s
  let (d1, r1) := takeDigits r
  if d1.isEmpty then none
  else do
    let r2 ← expectLit " --> ".data r1
    let (d2, _) := takeDigits r2
    if d2.isEmpty then none
    else pure ((digitsToNat d1 : Int), (digitsToNat d2 : Int))

/-- Greedy label capture for the AuraStacksChange pattern: the label is
everything before the last viable stacks tail. -/
def ascGo (cur : List Char) (best : Option (List Char × Int × Int)) :
    List Char → Option (List Char × Int × Int)
  | [] => best
  | c :: cs =>
      let best1 : Option (List Char × Int × Int) :=
        match ascTail (c :: cs) with
        | some (o, n) => some (cur.reverse, o, n)
        | none => best
      ascGo (c :: cur) best1 cs

/-- static AuraStacksChangeLog.parse (the captured label must be
nonempty: the source checks the truthiness of match[1]). -/
def AuraStacksChangeLog.parse (rv : Resolver) (params : SimLogParams) : Option SimLog :=
  match ascGo [] none params.raw.data with
  | none => none
  | some (label, o, n) =>
      if label.isEmpty then none
      else
        some (.auraStacksChange
          { params := { params with actionId := rv label.asString (params.source.map (fun e => e.index)) }
            oldStacks := o
            newStacks := n })

/-- static MajorCooldownUsedLog.parse. -/
def MajorCooldownUsedLog.parse (rv : Resolver) (params : SimLogParams) : Option SimLog :=
  match searchMap (fun s => expectLit "Major cooldown used: ".data s) params.raw.data with
  | none => none
  | some label =>
      some (.majorCooldownUsed
        { params with actionId := rv label.asString (params.source.map (fun e => e.index)) })

/-- The (m?s) unit group: ms when present, else s. -/
def parseUnit (s : List Char) : Option (Bool × List Char) :=
  match expectLit "ms".data s with
  | some r => some (true, r)
  | none => (expectLit "s".data s).map (fun r => (false, r))

/-- The data captured by the CastBegan pattern after the label. -/
structure CbTailData where
  cost : Rat
  castTime : Rat
  effectiveTime : Rat
deriving DecidableEq

/-- The cost/time tail of the CastBegan pattern at one position; times
given in ms are divided by 1000 as in the source. -/
def cbTail (s : List Char) : Option CbTailData := do
  let r ← expectLit " (Cost = ".data s
  let (cost, r1) ← parseNumFlex r
  let r2 ← expectLit ", Cast Time = ".data r1
  let (ct, r3) ← parseNumFlex r2
  let (ctMs, r4) ← parseUnit r3
  let r5 ← expectLit ", Effective Time = ".data r4
  let (et, r6) ← parseNumFlex r5
  let (etMs, r7) ← parseUnit r6
  let _ ← expectLit ")".data r7
  pure ⟨cost, if ctMs then ct / 1000 else ct, if etMs then et / 1000 else et⟩

/-- Greedy label capture for the CastBegan pattern. -/
def cbGo (cur : List Char) (best : Option (List Char × CbTailData)) :
    List Char → Option (List Char × CbTailData)
  | [] => best
  | c :: cs =>
      let best1 : Option (List Char × CbTailData) :=
        match cbTail (c :: cs) with
        | some t => some (cur.reverse, t)
        | none => best
      cbGo (c :: cur) best1 cs

/-- The CastBegan pattern at one position. -/
def cbAt (s : List Char) : Option (List Char × CbTailData) := do
  let r ← expectLit "Casting ".data s
  cbGo [] none r

/-- static CastBeganLog.parse. -/
def CastBeganLog.parse (rv : Resolver) (params : SimLogParams) : Option SimLog :=
  match searchMap cbAt params.raw.data with
  | none => none
  | some (label, t) =>
      some (.castBegan
        { params := { params with actionId := rv label.asString (params.source.map (fun e => e.index)) }
          manaCost := t.cost
          castTime := t.castTime
          effectiveTime := t.effectiveTime })

/-- static CastCompletedLog.parse. -/
def CastCompletedLog.parse (rv : Resolver) (params : SimLogParams) : Option SimLog :=
  match searchMap (fun s => expectLit "Completed cast ".data s) params.raw.data with
  | none => none
  | some label =>
      some (.castCompleted
        ⟨{ params with actionId := rv label.asString (params.source.map (fun e => e.index)) }⟩)

/-- The opening-brace and closing-brace characters (written by code
point). -/
def lbraceChar : Char := Char.ofNat 123

/-- The closing brace character. -/
def rbraceChar : Char := Char.ofNat 125

/-- Greedy stats-blob capture for the StatChange pattern: the blob ends
at the last closing brace followed by the from-separator; the optional
fading marker is consumed greedily. -/
def scGo (cur : List Char) (best : Option (List Char × Bool × List Char)) :
    List Char → Option (List Char × Bool × List Char)
  | [] => best
  | c :: cs =>
      let best1 : Option (List Char × Bool × List Char) :=
        if c = rbraceChar then
          match expectLit " from ".data cs with
          | some r =>
              match expectLit "fading ".data r with
              | some rr => some (cur.reverse, true, rr)
              | none => some (cur.reverse, false, r)
          | none => best
        else best
      scGo (c :: cur) best1 cs

/-- The StatChange pattern at one position: verb, a braced stats blob,
the from-separator, optional fading marker, and the label. -/
def scAt (s : List Char) : Option (Bool × List Char × Bool × List Char) := do
  let verbAndRest : Bool × List Char ←
    match expectLit "Gained ".data s with
    | some r => some (true, r)
    | none =>
        match expectLit "Lost ".data s with
        | some r => some (false, r)
        | none => none
  match verbAndRest.2 with
  | [] => none
  | c :: cs =>
      if c = lbraceChar then
        (scGo [] none cs).map (fun (inner, fading, label) => (verbAndRest.1, inner, fading, label))
      else none

/-- static StatChangeLog.parse.  The stored stats string is the braced
blob (capture 4 of the pattern, braces included). -/
def StatChangeLog.parse (rv : Resolver) (params : SimLogParams) : Option SimLog :=
  match searchMap scAt params.raw.data with
  | none => none
  | some (isGain, inner, _, label) =>
      some (.statChange
        { params := { params with actionId := rv label.asString (params.source.map (fun e => e.index)) }
          isGain := isGain
          stats := (lbraceChar :: inner ++ [rbraceChar]).asString })

/-! ## SimLog.parseAll -/

/-- String.prototype.split on the newline separator. -/
def splitLines : List Char → List (List Char)
  | [] => [[]]
  | c :: cs =>
      if c = '\n' then [] :: splitLines cs
      else
        match splitLines cs with
        | l :: ls => (c :: l) :: ls
        | [] => [[c]]

/-- Map with the element index, from a given start index. -/
def mapWithIndexFrom {α β : Type} (f : Nat → α → β) : Nat → List α → List β
  | _, [] => []
  | i, a :: rest => f i a :: mapWithIndexFrom f (i + 1) rest

/-- The kind-pattern priority chain of SimLog.parseAll, first match
wins, generic event as fallback. -/
def SimLog.classifyKind (rv : Resolver) (s2rt : ResourceNamer) (params : SimLogParams) :
    SimLog :=
  match DamageDealtLog.parse rv params with
  | some l => l
  | none =>
  match ResourceChangedLog.parse rv s2rt params with
  | some l => l
  | none =>
  match AuraEventLog.parse rv params with
  | some l => l
  | none =>
  match AuraStacksChangeLog.parse rv params with
  | some l => l
  | none =>
  match MajorCooldownUsedLog.parse rv params with
  | some l => l
  | none =>
  match CastBeganLog.parse rv params with
  | some l => l
  | none =>
  match CastCompletedLog.parse rv params with
  | some l => l
  | none =>
  match StatChangeLog.parse rv params with
  | some l => l
  | none => SimLog.generic params

/-- The per-line classifier body of SimLog.parseAll: header extraction
(spell school, threat with truncation, timestamp), entity assignment,
then the priority chain above. -/
def SimLog.parseLine (rv : Resolver) (s2rt : ResourceNamer) (lineIndex : Nat)
    (line : List Char) : SimLog :=
  let params0 : SimLogParams :=
    { raw := line.asString, logIndex := lineIndex, timestamp := 0,
      source := none, target := none, actionId := none, spellSchool := none, threat := 0 }
  let params1 : SimLogParams :=
    match spellSchoolSearch line with
    | some n => { params0 with spellSchool := some n }
    | none => params0
  let lineAndParams : List Char × SimLogParams :=
    match threatSearch line with
    | some (pre, t) => (pre, { params1 with threat := t })
    | none => (line, params1)
  match timestampSearch lineAndParams.1 with
  | none => SimLog.generic lineAndParams.2
  | some (ts, remainder) =>
      let params3 : SimLogParams := { lineAndParams.2 with timestamp := ts }
      let entities := Entity.parseAll remainder
      let params4 : SimLogParams :=
        { params3 with source := entities[0]?, target := entities[1]? }
      SimLog.classifyKind rv s2rt params4

/-- static SimLog.parseAll: split into lines and classify each line
with its index.  Promise.all joins the per-line results positionally,
so the batch is the index-keyed map of the per-line classifier — the
completion order of the per-line resolutions has no bearing on the
result, which is the content of the ordering guarantee. -/
def SimLog.parseAll (rv : Resolver) (s2rt : ResourceNamer) (logsText : String) : List SimLog :=
  mapWithIndexFrom (fun i line => SimLog.parseLine rv s2rt i line) 0 (splitLines logsText.data)

/-! ## Derived sequences -/

instance : Inhabited SimLogParams :=
  ⟨{ raw := "", logIndex := 0, timestamp := 0, source := none, target := none,
     actionId := none, spellSchool := none, threat := 0 }⟩

instance : Inhabited DamageDealtLog :=
  ⟨{ params := default, amount := 0, type := "", miss := false, crit := false,
     crush := false, glance := false, dodge := false, parry := false, block := false,
     tick := false, partialResist1_4 := false, partialResist2_4 := false,
     partialResist3_4 := false }⟩

instance : Inhabited ResourceChangedLog :=
  ⟨{ params := default, resourceType := 0, valueBefore := 0, valueAfter := 0,
     isSpend := false, total := 0, secondaryResourceType := none }⟩

/-- class AuraUptimeLog: gainedAt is the header timestamp (the
constructor sets this.gainedAt = params.timestamp). -/
structure AuraUptimeLog where
  params : SimLogParams
  fadedAt : Rat
  stacksChange : List AuraStacksChangeLog
deriving DecidableEq

/-- this.gainedAt = params.timestamp. -/
def AuraUptimeLog.gainedAt (l : AuraUptimeLog) : Rat := l.params.timestamp

/-- One entry of the unmatchedGainedLogs working list. -/
structure OpenAuraGain where
  gained : AuraEventLog
  stackList : List AuraStacksChangeLog
deriving DecidableEq

/-- The identifier match used by AuraUptimeLog.fromLogs:
gained.actionId!.equals(log.actionId!) ||
gained.actionId!.equalsIgnoringTag(log.actionId!).  The source applies
non-null assertions; the model totalizes them with the default
identifier. -/
def auraIdMatches (g : OpenAuraGain) (aid : Option ActionId) : Bool :=
  (g.gained.params.actionId.getD default).equals (aid.getD default) ||
  (g.gained.params.actionId.getD default).equalsIgnoringTag (aid.getD default)

/-- One iteration of the forEach in AuraUptimeLog.fromLogs, acting on
the (unmatchedGainedLogs, uptimeLogs) pair.  Events whose source is
absent or differs (structurally) from the given entity are skipped;
positive stacks changes are appended to the oldest matching open entry
(unmatched ones are discarded with a warning); a gained event opens an
entry; any other aura event closes the oldest matching open entry
(header raw/source/target/spellSchool from the closing event, the rest
from the gaining event) and, when it is a refresh, reopens one. -/
def auraStep (entity : Entity) (st : List OpenAuraGain × List AuraUptimeLog) (log : SimLog) :
    List OpenAuraGain × List AuraUptimeLog :=
  match log.params.source with
  | none => st
  | some src =>
      if !src.equals entity then st
      else
        match log with
        | .auraStacksChange sc =>
            if sc.newStacks ≤ 0 then st
            else
              match st.1.findIdx? (fun g => auraIdMatches g sc.params.actionId) with
              | none => st
              | some i =>
                  match st.1[i]? with
                  | none => st
                  | some g => (st.1.set i ⟨g.gained, g.stackList ++ [sc]⟩, st.2)
        | .auraEvent a =>
            if a.isGained then (st.1 ++ [⟨a, []⟩], st.2)
            else
              match st.1.findIdx? (fun g => auraIdMatches g a.params.actionId) with
              | none => st
              | some i =>
                  match st.1[i]? with
                  | none => st
                  | some g =>
                      let closed : AuraUptimeLog :=
                        { params :=
                            { raw := a.params.raw
                              logIndex := g.gained.params.logIndex
                              timestamp := g.gained.params.timestamp
                              source := a.params.source
                              target := a.params.target
                              actionId := g.gained.params.actionId
                              spellSchool := a.params.spellSchool
                              threat := g.gained.params.threat }
                          fadedAt := a.params.timestamp
                          stacksChange := g.stackList }
                      let remaining := st.1.eraseIdx i
                      if a.isRefreshed then (remaining ++ [⟨a, []⟩], st.2 ++ [closed])
                      else (remaining, st.2 ++ [closed])
        | _ => st

/-- Closing one entry still open at end of input: every header field
comes from the gaining event and fadedAt is the encounter duration. -/
def auraFinalize (encounterDuration : Rat) (g : OpenAuraGain) : AuraUptimeLog :=
  { params :=
      { raw := g.gained.params.raw
        logIndex := g.gained.params.logIndex
        timestamp := g.gained.params.timestamp
        source := g.gained.params.source
        target := g.gained.params.target
        actionId := g.gained.params.actionId
        spellSchool := g.gained.params.spellSchool
        threat := g.gained.params.threat }
    fadedAt := encounterDuration
    stacksChange := g.stackList }

/-- The uptime list in emission order: entries closed by a fade or
refresh in the order those closing events occur, then the entries still
open at end of input, in gain order. -/
def AuraUptimeLog.emitted (logs : List SimLog) (entity : Entity) (encounterDuration : Rat) :
    List AuraUptimeLog :=
  let st := logs.foldl (auraStep entity) ([], [])
  st.2 ++ st.1.map (auraFinalize encounterDuration)

/-- The comparator of the final sort: (a, b) => a.gainedAt - b.gainedAt. -/
def auraLe (a b : AuraUptimeLog) : Prop := a.gainedAt ≤ b.gainedAt

instance : DecidableRel auraLe :=
  fun a b => inferInstanceAs (Decidable (a.gainedAt ≤ b.gainedAt))

/-- static AuraUptimeLog.fromLogs.  Array.prototype.sort is a stable
sort, which the stable insertion sort models exactly. -/
def AuraUptimeLog.fromLogs (logs : List SimLog) (entity : Entity) (encounterDuration : Rat) :
    List AuraUptimeLog :=
  List.insertionSort auraLe (AuraUptimeLog.emitted logs entity encounterDuration)

/-! ## CastLog -/

/-- class CastLog. -/
structure CastLog where
  params : SimLogParams
  castTime : Rat
  effectiveTime : Rat
  travelTime : Rat
  castBeganLog : CastBeganLog
  castCompletedLog : Option CastCompletedLog
  damageDealtLogs : List DamageDealtLog
deriving DecidableEq

/-- JS x || y for object-valued x: falls back exactly when x is
null/undefined. -/
def jsOrOption {α : Type} (x y : Option α) : Option α :=
  match x with
  | some v => some v
  | none => y

/-- JS x || y for a number-or-null x: falls back when x is
null/undefined or 0 (0 is falsy). -/
def jsOrNumOption (x : Option Int) (y : Option Int) : Option Int :=
  match x with
  | some v => if v = 0 then y else some v
  | none => y

/-- JS x?.threat || y: falls back when the completion is absent or its
threat is 0. -/
def jsOrThreat (x : Option Rat) (y : Rat) : Rat :=
  match x with
  | some v => if v = 0 then y else v
  | none => y

/-- The CastLog constructor is split into these helpers: header fields
come from the begin event except actionId/spellSchool/threat, which
prefer the completion event under JS || semantics; cast and effective
times are recomputed as the completion-minus-begin delta when a
completion exists; travel time is nonzero only for a completed cast
with exactly one attributed non-tick damage event strictly after the
completion.  This helper is the cast/effective-time recomputation. -/
def castLogTimes (castBeganLog : CastBeganLog) (castCompletedLog : Option CastCompletedLog) :
    Rat × Rat :=
  match castCompletedLog with
  | some cc => (cc.params.timestamp - castBeganLog.params.timestamp,
                cc.params.timestamp - castBeganLog.params.timestamp)
  | none => (castBeganLog.castTime, castBeganLog.effectiveTime)

/-- The travel-time computation of the CastLog constructor. -/
def castLogTravel (castCompletedLog : Option CastCompletedLog)
    (damageDealtLogs : List DamageDealtLog) : Rat :=
  match castCompletedLog, damageDealtLogs with
  | some cc, [dd] =>
      if cc.params.timestamp < dd.params.timestamp && !dd.tick then
        dd.params.timestamp - cc.params.timestamp
      else 0
  | _, _ => 0

/-- The CastLog constructor (see the doc comment above castLogTimes). -/
def CastLog.create (castBeganLog : CastBeganLog) (castCompletedLog : Option CastCompletedLog)
    (damageDealtLogs : List DamageDealtLog) : CastLog :=
  let times : Rat × Rat := castLogTimes castBeganLog castCompletedLog
  let travel : Rat := castLogTravel castCompletedLog damageDealtLogs
  { params :=
      { raw := castBeganLog.params.raw
        logIndex := castBeganLog.params.logIndex
        timestamp := castBeganLog.params.timestamp
        source := castBeganLog.params.source
        target := castBeganLog.params.target
        actionId := jsOrOption (castCompletedLog.bind (fun c => c.params.actionId))
          castBeganLog.params.actionId
        spellSchool := jsOrNumOption (castCompletedLog.bind (fun c => c.params.spellSchool))
          castBeganLog.params.spellSchool
        threat := jsOrThreat (castCompletedLog.map (fun c => c.params.threat))
          castBeganLog.params.threat }
    castTime := times.1
    effectiveTime := times.2
    travelTime := travel
    castBeganLog := castBeganLog
    castCompletedLog := castCompletedLog
    damageDealtLogs := damageDealtLogs }

/-- The bucket key space: actionId.toString() keys on one side,
actionId.toStringIgnoringTag() keys on the other (the two canonical
string families are disjoint for the ids in question). -/
abbrev CastBucketKey := (Nat × Int) ⊕ Nat

/-- toBucketKey from CastLog.fromLogs: the two special-cased spell ids
(Arcane Blast, Cascade) bucket tag-insensitively. -/
def toBucketKey (actionId : ActionId) : CastBucketKey :=
  if actionId.spellId = 30451 ∨ actionId.spellId = 127632 then .inr actionId.keyIgnoringTag
  else .inl actionId.keyWithTag

/-- toBucketKey(log.actionId!): the source's non-null assertion,
totalized with the default identifier. -/
def CastLog.keyOf (aid : Option ActionId) : CastBucketKey := toBucketKey (aid.getD default)

/-- First-occurrence key order: utils.bucket inserts keys in first
occurrence order and Object.keys preserves insertion order for these
(non-integral) string keys. -/
def keysInOrderGo {κ : Type} [DecidableEq κ] (seen : List κ) : List κ → List κ
  | [] => []
  | k :: ks =>
      if seen.contains k then keysInOrderGo seen ks
      else k :: keysInOrderGo (seen ++ [k]) ks

/-- The deduplicated key list in first-occurrence order. -/
def keysInOrder {κ : Type} [DecidableEq κ] (l : List κ) : List κ := keysInOrderGo [] l

/-- The damage-consuming step of the per-bucket loop: when a next
completion exists, take damage strictly before it; otherwise take all
remaining damage. -/
def castTakeDamage (nextCc : Option CastCompletedLog) (dds : List DamageDealtLog) :
    List DamageDealtLog × List DamageDealtLog :=
  match nextCc with
  | none => (dds, [])
  | some cc =>
      (dds.takeWhile (fun d => d.params.timestamp < cc.params.timestamp),
       dds.dropWhile (fun d => d.params.timestamp < cc.params.timestamp))

/-- The per-bucket loop of CastLog.fromLogs: the i-th began is paired
with the i-th completed (absent past the end), and the shared damage
cursor advances past the damage attributed to each cast. -/
def castBucketGo (completed : List CastCompletedLog) :
    List CastBeganLog → Nat → List DamageDealtLog → List CastLog
  | [], _, _ => []
  | cb :: rest, i, dds =>
      let ccLog := completed[i]?
      let nextCc := completed[i + 1]?
      let taken := castTakeDamage nextCc dds
      CastLog.create cb ccLog taken.1 :: castBucketGo completed rest (i + 1) taken.2

/-- One ability bucket of CastLog.fromLogs. -/
def CastLog.processBucket (began : List CastBeganLog) (completed : List CastCompletedLog)
    (dd : List DamageDealtLog) : List CastLog :=
  castBucketGo completed began 0 dd

/-- The comparator of the final sort: (a, b) => a.timestamp - b.timestamp. -/
def castLe (a b : CastLog) : Prop := a.params.timestamp ≤ b.params.timestamp

instance : DecidableRel castLe :=
  fun a b => inferInstanceAs (Decidable (a.params.timestamp ≤ b.params.timestamp))

/-- static CastLog.fromLogs: filter the three event kinds, bucket them
by ability key (a bucket lookup is a filter by key, and missing record
entries behave as empty lists), process each bucket that has a began
event, and stable-sort the concatenation by timestamp. -/
def CastLog.fromLogs (logs : List SimLog) : List CastLog :=
  let castBeganLogs := logs.filterMap SimLog.asCastBegan
  let castCompletedLogs := logs.filterMap SimLog.asCastCompleted
  let damageDealtLogs := logs.filterMap SimLog.asDamageDealt
  let keys := keysInOrder (castBeganLogs.map (fun l => CastLog.keyOf l.params.actionId))
  let castLogs := (keys.map (fun k =>
    CastLog.processBucket
      (castBeganLogs.filter (fun l => CastLog.keyOf l.params.actionId = k))
      (castCompletedLogs.filter (fun l => CastLog.keyOf l.params.actionId = k))
      (damageDealtLogs.filter (fun l => CastLog.keyOf l.params.actionId = k)))).flatten
  List.insertionSort castLe castLogs

/-! ## DpsLog -/

/-- class DpsLog. -/
structure DpsLog where
  params : SimLogParams
  dps : Rat
  damageLogs : List DamageDealtLog
deriving DecidableEq

instance : Inhabited DpsLog := ⟨{ params := default, dps := 0, damageLogs := [] }⟩

/-- static DpsLog.DPS_WINDOW = 15. -/
def DpsLog.DPS_WINDOW : Rat := 15

/-- The findIndex eviction with its side effect: walk the queue from
the front, subtracting the amount of every entry at or before the
cutoff, stopping at the first entry strictly inside the window. -/
def dpsEvict (cutoff : Rat) : List DamageDealtLog → Rat → List DamageDealtLog × Rat
  | [], total => ([], total)
  | l :: ls, total =>
      if cutoff < l.params.timestamp then (l :: ls, total)
      else dpsEvict cutoff ls (total - l.amount)

/-- The per-group loop of DpsLog.fromLogs, carrying the running queue
and running sum. -/
def dpsGo : List (List DamageDealtLog) → List DamageDealtLog → Rat → List DpsLog
  | [], _, _ => []
  | g :: gs, queue, total =>
      let head := g.headD default
      let queue1 := queue ++ g
      let total1 := total + (g.map (fun d => d.amount)).sum
      let evicted := dpsEvict (head.params.timestamp - DpsLog.DPS_WINDOW) queue1 total1
      { params :=
          { raw := ""
            logIndex := head.params.logIndex
            timestamp := head.params.timestamp
            source := head.params.source
            target := none
            actionId := none
            spellSchool := head.params.spellSchool
            threat := 0 }
        dps := evicted.2 / DpsLog.DPS_WINDOW
        damageLogs := g } :: dpsGo gs evicted.1 evicted.2

/-- static DpsLog.fromLogs. -/
def DpsLog.fromLogs (damageDealtLogs : List DamageDealtLog) : List DpsLog :=
  dpsGo (SimLog.groupDuplicateTimestamps (fun d => d.params.timestamp) damageDealtLogs) [] 0

/-! ## ResourceChangedLogGroup -/

/-- class ResourceChangedLogGroup. -/
structure ResourceChangedLogGroup where
  params : SimLogParams
  resourceType : Nat
  valueBefore : Rat
  valueAfter : Rat
  maxValue : Rat
  logs : List ResourceChangedLog
deriving DecidableEq

instance : Inhabited ResourceChangedLogGroup :=
  ⟨{ params := default, resourceType := 0, valueBefore := 0, valueAfter := 0, maxValue := 0,
     logs := [] }⟩

/-- The maxResource helper: the running maximum of the totals, starting
at 0. -/
def maxResource (logs : List ResourceChangedLog) : Rat :=
  logs.foldl (fun m l => if m < l.total then l.total else m) 0

/-- The group-to-log map body of ResourceChangedLogGroup.fromLogs. -/
def ResourceChangedLogGroup.ofGroup (resourceType : Nat) (logGroup : List ResourceChangedLog) :
    ResourceChangedLogGroup :=
  let head := logGroup.headD default
  { params :=
      { raw := ""
        logIndex := head.params.logIndex
        timestamp := head.params.timestamp
        source := head.params.source
        target := head.params.target
        actionId := none
        spellSchool := head.params.spellSchool
        threat := 0 }
    resourceType := resourceType
    valueBefore := head.valueBefore
    valueAfter := (logGroup.getLastD default).valueAfter
    maxValue := maxResource logGroup
    logs := logGroup }

/-- static ResourceChangedLogGroup.fromLogs, as the per-resource-type
content of the record it returns (the source materializes the same
groups for every enum resource type; looking up one type's entry is the
filter below). -/
def ResourceChangedLogGroup.fromLogs (logs : List SimLog) (resourceType : Nat) :
    List ResourceChangedLogGroup :=
  let resourceChangedLogs :=
    (logs.filterMap SimLog.asResourceChanged).filter (fun l => l.resourceType = resourceType)
  (SimLog.groupDuplicateTimestamps (fun l => l.params.timestamp) resourceChangedLogs).map
    (ResourceChangedLogGroup.ofGroup resourceType)

/-- The timestamp of the first element of a group (0 for the empty
group, which never occurs in the grouped output). -/
def groupHeadTs {α : Type} (ts : α → Rat) : List α → Rat
  | [] => 0
  | x :: _ => ts x

/-- Reference form of the grouping: split off the maximal run of the
head's timestamp, recurse on the rest. -/
def groupSpanF {α : Type} (ts : α → Rat) : List α → List (List α)
  | [] => []
  | a :: rest =>
      (a :: rest.takeWhile (fun x => ts x == ts a)) ::
        groupSpanF ts (rest.dropWhile (fun x => ts x == ts a))
termination_by l => l.length
decreasing_by
  simp only [List.length_cons]
  exact Nat.lt_succ_of_le (List.Sublist.length_le (List.dropWhile_sublist _))

/-- Strict group structure of a timestamp-sorted list: each group is
nonempty and uniform, and every element of every later group has a
strictly larger timestamp than the group's timestamp. -/
def StrictGroups {α : Type} (ts : α → Rat) : List (List α) → Prop
  | [] => True
  | g :: gs =>
      (g ≠ [] ∧ ∀ x ∈ g, ts x = groupHeadTs ts g) ∧
      (∀ x ∈ gs.flatten, groupHeadTs ts g < ts x) ∧ StrictGroups ts gs

/-! ## Remaining definitions: instances, spec-side definitions and
concrete fixtures used by the theorems -/

instance : Inhabited AuraUptimeLog := ⟨{ params := default, fadedAt := 0, stacksChange := [] }⟩

instance : Inhabited CastLog :=
  ⟨{ params := default, castTime := 0, effectiveTime := 0, travelTime := 0,
     castBeganLog := { params := default, manaCost := 0, castTime := 0, effectiveTime := 0 },
     castCompletedLog := none, damageDealtLogs := [] }⟩

instance : IsTotal AuraUptimeLog auraLe := ⟨fun a b => le_total a.gainedAt b.gainedAt⟩

instance : IsTrans AuraUptimeLog auraLe := ⟨fun _ _ _ h1 h2 => le_trans h1 h2⟩

instance : IsTotal CastLog castLe := ⟨fun a b => le_total a.params.timestamp b.params.timestamp⟩

instance : IsTrans CastLog castLe := ⟨fun _ _ _ h1 h2 => le_trans h1 h2⟩

/-- Written from the specification sentence being checked (claim C2,
amended): the damage events attributed to the i-th cast of a bucket.
With a next completion they are the bucket's damage events strictly
before it — restricted, for casts after the first, to timestamps at or
after the cast's own completion; the first cast also receives any
earlier damage.  With no next completion: everything for the last
completed cast (or the sole cast of a completion-free bucket), nothing
for later unpaired casts. -/
def specAttributedDamage (completed : List CastCompletedLog) (dd : List DamageDealtLog)
    (i : Nat) : List DamageDealtLog :=
  match completed[i + 1]? with
  | some next =>
      if i = 0 then dd.filter (fun d => d.params.timestamp < next.params.timestamp)
      else
        match completed[i]? with
        | some cc =>
            dd.filter (fun d => cc.params.timestamp ≤ d.params.timestamp ∧
              d.params.timestamp < next.params.timestamp)
        | none => []
  | none =>
      if i = 0 then dd
      else
        match completed[i]? with
        | some cc => dd.filter (fun d => cc.params.timestamp ≤ d.params.timestamp)
        | none => []

/-- A demo player entity for the concrete test vectors. -/
def demoEntity : Entity := ⟨"P", "", 0, false, false⟩

/-- Demo ability identity A. -/
def demoA : ActionId := ⟨100, 0, "A"⟩

/-- Demo ability identity B (distinct from A, also tag-insensitively). -/
def demoB : ActionId := ⟨200, 0, "B"⟩

/-- A demo header sourced at the demo entity. -/
def demoParams (raw : String) (i : Nat) (t : Rat) (aid : Option ActionId) (ss : Option Int) :
    SimLogParams :=
  { raw := raw, logIndex := i, timestamp := t, source := some demoEntity, target := none,
    actionId := aid, spellSchool := ss, threat := 0 }

/-- A demo aura event. -/
def demoAuraEvent (raw : String) (i : Nat) (t : Rat) (aid : ActionId) (ss : Option Int)
    (g f r : Bool) : SimLog :=
  .auraEvent ⟨demoParams raw i t (some aid) ss, g, f, r⟩

/-- A demo aura-gained event. -/
def demoGain (i : Nat) (t : Rat) (aid : ActionId) : SimLog :=
  demoAuraEvent "g" i t aid none true false false

/-- A demo aura-faded event. -/
def demoFade (i : Nat) (t : Rat) (aid : ActionId) : SimLog :=
  demoAuraEvent "f" i t aid none false true false

/-- A demo aura-refreshed event. -/
def demoRefresh (i : Nat) (t : Rat) (aid : ActionId) : SimLog :=
  demoAuraEvent "r" i t aid none false false true

/-- A demo aura stacks-change event. -/
def demoStk (i : Nat) (t : Rat) (aid : ActionId) (o n : Int) : SimLog :=
  .auraStacksChange ⟨demoParams "s" i t (some aid) none, o, n⟩

/-- A demo cast-began event. -/
def demoCastBegan (i : Nat) (t : Rat) (aid : ActionId) : CastBeganLog :=
  { params := demoParams "cb" i t (some aid) none, manaCost := 10, castTime := 2,
    effectiveTime := 2 }

/-- A demo cast-completed event. -/
def demoCastCompleted (i : Nat) (t : Rat) (aid : ActionId) : CastCompletedLog :=
  ⟨demoParams "cc" i t (some aid) none⟩

/-- A demo damage event. -/
def demoDamage (i : Nat) (t : Rat) (aid : Option ActionId) (amt : Rat) (tk : Bool) :
    DamageDealtLog :=
  { params := demoParams "dd" i t aid none, amount := amt, type := "damage", miss := false,
    crit := false, crush := false, glance := false, dodge := false, parry := false,
    block := false, tick := tk, partialResist1_4 := false, partialResist2_4 := false,
    partialResist3_4 := false }

/-- A demo resource-changed event. -/
def demoResource (i : Nat) (t : Rat) (vb va tot : Rat) : ResourceChangedLog :=
  { params := demoParams "rc" i t none none, resourceType := 1, valueBefore := vb,
    valueAfter := va, isSpend := false, total := tot, secondaryResourceType := none }

/-- A demo resolver for the parse tests: resolves every label, encoding
the label in the identity. -/
def demoResolver : Resolver := fun label _ => some ⟨label.length, 0, label⟩

/-- A demo resource namer. -/
def demoNamer : ResourceNamer := fun _ => (1, none)

/-- The remaining-damage state of the per-bucket loop before processing
cast i: everything for the first cast, the damage at or after the i-th
completion once one was consumed, nothing once a cast with no next
completion has taken the rest. -/
def castStateFilter (completed : List CastCompletedLog) (dd : List DamageDealtLog) (i : Nat) :
    List DamageDealtLog :=
  if i = 0 then dd
  else
    match completed[i]? with
    | some cc => dd.filter (fun d => cc.params.timestamp ≤ d.params.timestamp)
    | none => []

instance : Inhabited SimLog := ⟨SimLog.generic default⟩

/-! ## Proof infrastructure: stable sorting -/

/-- Inserting an element that satisfies the filter: every element the
insertion walks past fails the filter, so the inserted element lands at
the front of the filtered view. -/
theorem orderedInsert_filter_pos {α : Type} (r : α → α → Prop) [DecidableRel r] (p : α → Bool)
    (a : α) (l : List α) (hpa : p a = true) (h : ∀ b, ¬ r a b → p b = false) :
    (List.orderedInsert r a l).filter p = a :: l.filter p := by
  induction l with
  | nil => simp [List.orderedInsert, hpa]
  | cons b bs ih =>
      by_cases hab : r a b
      · simp [List.orderedInsert, hab, hpa]
      · have hpb : p b = false := h b hab
        simp [List.orderedInsert, hab, List.filter_cons, hpb, ih]

/-- Inserting an element that fails the filter never changes the
filtered view. -/
theorem orderedInsert_filter_neg {α : Type} (r : α → α → Prop) [DecidableRel r] (p : α → Bool)
    (a : α) (l : List α) (hpa : p a = false) :
    (List.orderedInsert r a l).filter p = l.filter p := by
  induction l with
  | nil => simp [List.orderedInsert, hpa]
  | cons b bs ih =>
      by_cases hab : r a b
      · simp [List.orderedInsert, hab, List.filter_cons, hpa]
      · simp [List.orderedInsert, hab, List.filter_cons, ih]

/-- Stability of the insertion sort, in filtered-view form: for any
filter such that an element inside the view never gets inserted past
another element of the view, sorting commutes with filtering. -/
theorem insertionSort_filter_stable {α : Type} (r : α → α → Prop) [DecidableRel r] (p : α → Bool)
    (H : ∀ a b, p a = true → ¬ r a b → p b = false) (l : List α) :
    (List.insertionSort r l).filter p = l.filter p := by
  induction l with
  | nil => rfl
  | cons a as ih =>
      rw [List.insertionSort]
      by_cases hpa : p a = true
      · rw [orderedInsert_filter_pos r p a _ hpa (fun b => H a b hpa), ih,
          List.filter_cons_of_pos hpa]
      · rw [orderedInsert_filter_neg r p a _ (by simpa using hpa), ih,
          List.filter_cons_of_neg (by simpa using hpa)]

/-! ## Proof infrastructure: timestamp grouping -/

/-- The accumulator loop equals the reference form (cons-shaped current
group). -/
theorem groupDuplicateTimestampsGo_eq {α : Type} (ts : α → Rat) :
    ∀ (l : List α) (c : α) (cs : List α) (acc : List (List α)),
      (∀ x ∈ cs, ts x == ts c) →
      groupDuplicateTimestampsGo ts l (c :: cs) acc =
        acc ++ ((c :: cs) ++ l.takeWhile (fun x => ts x == ts c)) ::
          groupSpanF ts (l.dropWhile (fun x => ts x == ts c)) := by
  intro l
  induction l with
  | nil =>
      intro c cs acc _
      simp [groupDuplicateTimestampsGo, groupSpanF]
  | cons log rest ih =>
      intro c cs acc hcs
      by_cases hts : ts log == ts c
      · have : groupDuplicateTimestampsGo ts (log :: rest) (c :: cs) acc =
            groupDuplicateTimestampsGo ts rest (c :: (cs ++ [log])) acc := by
          simp [groupDuplicateTimestampsGo, List.headD, hts]
        rw [this, ih c (cs ++ [log]) acc (by
          intro x hx
          rcases List.mem_append.mp hx with h | h
          · exact hcs x h
          · simp at h; simp [h, hts])]
        simp [List.takeWhile_cons, hts, List.dropWhile_cons]
      · have : groupDuplicateTimestampsGo ts (log :: rest) (c :: cs) acc =
            groupDuplicateTimestampsGo ts rest [log] (acc ++ [c :: cs]) := by
          simp [groupDuplicateTimestampsGo, List.headD, hts]
        rw [this, ih log [] (acc ++ [c :: cs]) (by simp)]
        simp [List.takeWhile_cons, hts, List.dropWhile_cons, groupSpanF]

/-- The grouping loop, started empty, is the reference form. -/
theorem groupDuplicateTimestamps_eq_span {α : Type} (ts : α → Rat) (l : List α) :
    SimLog.groupDuplicateTimestamps ts l = groupSpanF ts l := by
  cases l with
  | nil => simp [SimLog.groupDuplicateTimestamps, groupDuplicateTimestampsGo, groupSpanF]
  | cons a rest =>
      have h0 : SimLog.groupDuplicateTimestamps ts (a :: rest) =
          groupDuplicateTimestampsGo ts rest [a] [] := by
        simp [SimLog.groupDuplicateTimestamps, groupDuplicateTimestampsGo]
      rw [h0, groupDuplicateTimestampsGo_eq ts rest a [] [] (by simp)]
      simp [groupSpanF]

/-- The groups concatenate back to the input list. -/
theorem groupSpanF_flatten {α : Type} (ts : α → Rat) (l : List α) :
    (groupSpanF ts l).flatten = l := by
  induction l using groupSpanF.induct ts with
  | case1 => simp [groupSpanF]
  | case2 a rest ih =>
      rw [groupSpanF]
      simp only [List.flatten_cons, ih]
      simp [List.takeWhile_append_dropWhile]

/-- Every group is nonempty and timestamp-uniform: all its elements
carry the timestamp of its first element. -/
theorem groupSpanF_good {α : Type} (ts : α → Rat) (l : List α) :
    ∀ g ∈ groupSpanF ts l, g ≠ [] ∧ ∀ x ∈ g, ts x = groupHeadTs ts g := by
  induction l using groupSpanF.induct ts with
  | case1 => simp [groupSpanF]
  | case2 a rest ih =>
      rw [groupSpanF]
      intro g hg
      rcases List.mem_cons.mp hg with h | h
      · subst h
        refine ⟨by simp, ?_⟩
        intro x hx
        rcases List.mem_cons.mp hx with h | h
        · subst h; rfl
        · have := List.mem_takeWhile_imp h
          simpa [groupHeadTs] using (by simpa using this : ts x = ts a)
      · exact ih g h

/-- Elements surviving the dropWhile of a sorted, lower-bounded list
are strictly above the bound timestamp. -/
theorem dropWhile_ts_strict {α : Type} (ts : α → Rat) (t : Rat) :
    ∀ (l : List α), (∀ y ∈ l, t ≤ ts y) →
      List.Pairwise (fun x y => ts x ≤ ts y) l →
      ∀ x ∈ l.dropWhile (fun y => ts y == t), t < ts x := by
  intro l
  induction l with
  | nil => intro _ _ x hx; simp at hx
  | cons y ys ih =>
      intro hlb hp x hx
      by_cases hy : (ts y == t) = true
      · rw [List.dropWhile_cons, if_pos hy] at hx
        exact ih (fun z hz => hlb z (List.mem_cons_of_mem _ hz)) (List.Pairwise.of_cons hp) x hx
      · rw [List.dropWhile_cons, if_neg hy] at hx
        have hyt : t < ts y :=
          lt_of_le_of_ne (hlb y (List.mem_cons_self _ _)) (fun h => hy (by simp [h]))
        rcases List.mem_cons.mp hx with h | h
        · subst h; exact hyt
        · exact lt_of_lt_of_le hyt ((List.pairwise_cons.mp hp).1 x h)

/-- A sorted list groups into strict group structure. -/
theorem groupSpanF_strict {α : Type} (ts : α → Rat) (l : List α)
    (hs : List.Pairwise (fun x y => ts x ≤ ts y) l) :
    StrictGroups ts (groupSpanF ts l) := by
  induction l using groupSpanF.induct ts with
  | case1 => simp [groupSpanF, StrictGroups]
  | case2 a rest ih =>
      rw [groupSpanF]
      have hpc := List.pairwise_cons.mp hs
      refine ⟨?_, ?_, ih (hpc.2.sublist (List.dropWhile_sublist _))⟩
      · refine ⟨by simp, ?_⟩
        intro x hx
        rcases List.mem_cons.mp hx with h | h
        · subst h; rfl
        · have := List.mem_takeWhile_imp h
          simpa [groupHeadTs] using (by simpa using this : ts x = ts a)
      · intro x hx
        rw [groupSpanF_flatten] at hx
        simpa [groupHeadTs] using
          dropWhile_ts_strict ts (ts a) rest (fun y hy => hpc.1 y hy) hpc.2 x hx

/-- Unpacking StrictGroups for a member group. -/
theorem StrictGroups.mem_good {α : Type} {ts : α → Rat} :
    ∀ {gs : List (List α)}, StrictGroups ts gs →
      ∀ g ∈ gs, g ≠ [] ∧ ∀ x ∈ g, ts x = groupHeadTs ts g := by
  intro gs
  induction gs with
  | nil => intro _ g hg; simp at hg
  | cons g0 gs0 ih =>
      intro hsg g hg
      rcases List.mem_cons.mp hg with h | h
      · subst h; exact hsg.1
      · exact ih hsg.2.2 g h

/-! ## Claim C3: aura lifecycle reconstruction -/

/-- A step on an event that is not a fade or refresh leaves the emitted
uptime list untouched. -/
theorem auraStep_snd_of_noClose (entity : Entity) (st : List OpenAuraGain × List AuraUptimeLog)
    (l : SimLog) (h : ∀ a, l = SimLog.auraEvent a → a.isGained = true) :
    (auraStep entity st l).2 = st.2 := by
  cases l with
  | auraEvent a =>
      have hg : a.isGained = true := h a rfl
      unfold auraStep
      split
      · rfl
      split
      · rfl
      · simp [hg]
  | auraStacksChange sc =>
      unfold auraStep
      split
      · rfl
      split
      · rfl
      · by_cases hns : sc.newStacks ≤ 0
        · simp [hns]
        · rcases hf : List.findIdx? (fun g => auraIdMatches g sc.params.actionId) st.1 with _ | i
          · simp [hns, hf]
          · rcases hget : st.1[i]? with _ | g
            · simp [hns, hf, hget]
            · simp [hns, hf, hget]
  | generic p =>
      unfold auraStep
      split
      · rfl
      · split <;> rfl
  | damageDealt d =>
      unfold auraStep
      split
      · rfl
      · split <;> rfl
  | resourceChanged r =>
      unfold auraStep
      split
      · rfl
      · split <;> rfl
  | majorCooldownUsed p =>
      unfold auraStep
      split
      · rfl
      · split <;> rfl
  | castBegan c =>
      unfold auraStep
      split
      · rfl
      · split <;> rfl
  | castCompleted c =>
      unfold auraStep
      split
      · rfl
      · split <;> rfl
  | statChange sc =>
      unfold auraStep
      split
      · rfl
      · split <;> rfl

/-- Folding over close-free events never emits a closed interval. -/
theorem aura_foldl_snd_of_noClose (entity : Entity) :
    ∀ (logs : List SimLog) (st : List OpenAuraGain × List AuraUptimeLog),
      (∀ l ∈ logs, ∀ a, l = SimLog.auraEvent a → a.isGained = true) →
      (logs.foldl (auraStep entity) st).2 = st.2 := by
  intro logs
  induction logs with
  | nil => intro st _; rfl
  | cons l rest ih =>
      intro st h
      rw [List.foldl_cons]
      rw [ih (auraStep entity st l) (fun x hx => h x (List.mem_cons_of_mem _ hx))]
      exact auraStep_snd_of_noClose entity st l (h l (List.mem_cons_self _ _))

/-- C3: AuraUptimeLog.fromLogs, restricted to events sourced at the
given entity, opens an entry per gained event; fades, refreshes and
positive stacks changes match the oldest open entry with an exactly or
tag-insensitively equal identifier (FIFO, as the two-instance vector
shows — nearest-by-time matching would yield the intervals [5,6] and
[1,10] instead); unmatched closers and stacks changes are discarded; a
refresh closes and immediately reopens; open entries close at the
encounter duration — in particular gain@1, stacks 0→2@3, fade@5 gives
one interval [1,5] with one nested stacks change, and an unfaded aura
with duration 300 gives fadedAt 300. -/
theorem auraUptime_fromLogs_matching_spec :
    ((AuraUptimeLog.fromLogs [demoGain 0 1 demoA, demoStk 1 3 demoA 0 2, demoFade 2 5 demoA]
        demoEntity 300).map (fun u => (u.gainedAt, u.fadedAt, u.stacksChange.length))
      = [(1, 5, 1)])
    ∧ ((AuraUptimeLog.fromLogs [demoGain 0 1 demoA] demoEntity 300).map
        (fun u => (u.gainedAt, u.fadedAt)) = [(1, 300)])
    ∧ ((AuraUptimeLog.fromLogs [demoGain 0 1 demoA, demoGain 1 5 demoA, demoFade 2 6 demoA,
          demoFade 3 10 demoA] demoEntity 300).map (fun u => (u.gainedAt, u.fadedAt))
        = [(1, 6), (5, 10)])
    ∧ ((AuraUptimeLog.fromLogs [demoFade 0 2 demoA, demoGain 1 3 demoB] demoEntity 300).map
        (fun u => (u.gainedAt, u.fadedAt)) = [(3, 300)])
    ∧ (AuraUptimeLog.fromLogs [demoStk 0 1 demoA 0 2] demoEntity 300 = [])
    ∧ ((AuraUptimeLog.fromLogs [demoGain 0 1 demoA, demoRefresh 1 4 demoA, demoFade 2 9 demoA]
        demoEntity 300).map (fun u => (u.gainedAt, u.fadedAt)) = [(1, 4), (4, 9)])
    ∧ (∀ (logs : List SimLog) (entity : Entity) (dur : Rat),
        (∀ l ∈ logs, ∀ a, l = SimLog.auraEvent a → a.isGained = true) →
        ∀ u ∈ AuraUptimeLog.fromLogs logs entity dur, u.fadedAt = dur) := by
  refine ⟨by decide, by decide, by decide, by decide, by decide, by decide, ?_⟩
  intro logs entity dur hnc u hu
  have hsnd : (logs.foldl (auraStep entity) ([], [])).2 = [] :=
    aura_foldl_snd_of_noClose entity logs ([], []) hnc
  have hu' : u ∈ AuraUptimeLog.emitted logs entity dur :=
    ((List.perm_insertionSort auraLe _).mem_iff).mp hu
  simp only [AuraUptimeLog.emitted, hsnd, List.nil_append, List.mem_map] at hu'
  obtain ⟨g, _, rfl⟩ := hu'
  rfl

/-- Witness for C3: the general still-open clause applied to a concrete
one-gain input. -/
theorem auraUptime_fromLogs_matching_spec_witness :
    ((AuraUptimeLog.fromLogs [demoGain 0 1 demoA] demoEntity 300).headD default).fadedAt = 300 := by
  refine auraUptime_fromLogs_matching_spec.2.2.2.2.2.2 [demoGain 0 1 demoA] demoEntity 300
    ?_ _ ?_
  · intro l hl a hla
    have hl' : l = demoGain 0 1 demoA := by simpa using hl
    subst hl'
    simp only [demoGain, demoAuraEvent, SimLog.auraEvent.injEq] at hla
    subst hla
    rfl
  · decide

/-! ## Claim C4: provenance of the uptime-log header -/

/-- Counterexample to C4: an interval closed by a fade takes raw (and
source, target, spellSchool) from the fade event, not the gaining
event — here the produced header has the fade's raw "f2" and spell
school 2, while logIndex, actionId and timestamp come from the gain. -/
theorem auraUptime_header_from_fade_cex :
    ((AuraUptimeLog.fromLogs
        [demoAuraEvent "g1" 0 1 demoA (some 1) true false false,
         demoAuraEvent "f2" 1 5 demoA (some 2) false true false] demoEntity 300).map
      (fun u => (u.params.raw, u.params.spellSchool, u.params.logIndex, u.params.actionId)))
      = [("f2", some 2, 0, some demoA)]
    ∧ ("f2" : String) ≠ "g1" ∧ (some 2 : Option Int) ≠ some 1 := by
  refine ⟨by decide, by decide, by decide⟩

/-- C4 (amended): for an entry closed by a fade or refresh, logIndex,
timestamp, actionId and threat are copied from the gaining event while
raw, source, target and spellSchool come from the closing event (and
fadedAt is the closing event's timestamp); only entries still open at
end of input copy every header field from the gaining event. -/
theorem auraUptime_header_provenance
    (entity : Entity) (st : List OpenAuraGain × List AuraUptimeLog) (a : AuraEventLog)
    (src : Entity) (i : Nat) (g : OpenAuraGain)
    (hsrc : a.params.source = some src) (hmatch : src.equals entity = true)
    (hng : a.isGained = false)
    (hfind : st.1.findIdx? (fun g => auraIdMatches g a.params.actionId) = some i)
    (hget : st.1[i]? = some g) :
    (auraStep entity st (SimLog.auraEvent a)).2 = st.2 ++
      [{ params :=
           { raw := a.params.raw
             logIndex := g.gained.params.logIndex
             timestamp := g.gained.params.timestamp
             source := a.params.source
             target := a.params.target
             actionId := g.gained.params.actionId
             spellSchool := a.params.spellSchool
             threat := g.gained.params.threat }
         fadedAt := a.params.timestamp
         stacksChange := g.stackList }]
    ∧ ∀ (dur : Rat) (g' : OpenAuraGain),
        auraFinalize dur g' =
          { params := g'.gained.params, fadedAt := dur, stacksChange := g'.stackList } := by
  constructor
  · unfold auraStep
    simp only [SimLog.params, hsrc, hmatch, Bool.not_true, hng, hfind, hget]
    by_cases hr : a.isRefreshed = true <;> simp [hr]
  · intro dur g'
    rfl

/-- Witness for C4's amended theorem at a concrete closing step. -/
theorem auraUptime_header_provenance_witness :
    (auraStep demoEntity
        ([⟨⟨demoParams "g1" 0 1 (some demoA) (some 1), true, false, false⟩, []⟩], [])
        (demoAuraEvent "f2" 1 5 demoA (some 2) false true false)).2 =
      [{ params :=
           { raw := "f2", logIndex := 0, timestamp := 1, source := some demoEntity,
             target := none, actionId := some demoA, spellSchool := some 2, threat := 0 }
         fadedAt := 5
         stacksChange := [] }] := by
  have h := auraUptime_header_provenance demoEntity
    ([⟨⟨demoParams "g1" 0 1 (some demoA) (some 1), true, false, false⟩, []⟩], [])
    ⟨demoParams "f2" 1 5 (some demoA) (some 2), false, true, false⟩
    demoEntity 0
    ⟨⟨demoParams "g1" 0 1 (some demoA) (some 1), true, false, false⟩, []⟩
    (by decide) (by decide) (by decide) (by decide) (by decide)
  exact h.1

/-! ## Claim C5: order of the returned uptime sequence -/

/-- Counterexample to C5: with gains A (line 0) then B (line 1) at the
same timestamp and B fading first, the two produced logs tie on
gainedAt but appear with B's log (originating gain at line 1) before
A's (originating gain at line 0) — emission order is close order, not
the input order of the gaining events. -/
theorem auraUptime_sort_tie_order_cex :
    ((AuraUptimeLog.fromLogs
        [demoGain 0 1 demoA, demoGain 1 1 demoB, demoFade 2 2 demoB, demoFade 3 3 demoA]
        demoEntity 300).map (fun u => (u.params.logIndex, u.gainedAt)))
      = [(1, 1), (0, 1)]
    ∧ (1 : Nat) ≠ 0 := by
  exact ⟨by decide, by decide⟩

/-- C5 (amended): the returned sequence is the stable sort by gainedAt
of the emission sequence — so it is sorted by gainedAt ascending, and
logs tying on gainedAt appear in emission order (closing-event order
for closed entries, then end-of-input closures in gain order), not
necessarily in the order of their gaining events. -/
theorem auraUptime_fromLogs_sorted_stable
    (logs : List SimLog) (entity : Entity) (dur : Rat) :
    AuraUptimeLog.fromLogs logs entity dur =
      List.insertionSort auraLe (AuraUptimeLog.emitted logs entity dur)
    ∧ List.Sorted auraLe (AuraUptimeLog.fromLogs logs entity dur)
    ∧ ∀ t : Rat,
        (AuraUptimeLog.fromLogs logs entity dur).filter (fun u => u.gainedAt == t) =
          (AuraUptimeLog.emitted logs entity dur).filter (fun u => u.gainedAt == t) := by
  refine ⟨rfl, List.sorted_insertionSort auraLe _, ?_⟩
  intro t
  refine insertionSort_filter_stable auraLe (fun u => u.gainedAt == t) ?_ _
  intro a b hpa hr
  have ha : a.gainedAt = t := by simpa using hpa
  have hb : b.gainedAt < a.gainedAt := lt_of_not_le hr
  simp [ha ▸ ne_of_lt hb]

/-! ## Claim C6: travel time -/

/-- C6: travelTime is the damage-minus-completion delta exactly when a
completion exists, exactly one damage event is attributed, it is not a
tick, and it lands strictly after the completion; in every other case
(including a cast with no completion) it is 0. -/
theorem castLog_travelTime_spec (cb : CastBeganLog) (occ : Option CastCompletedLog)
    (dds : List DamageDealtLog) :
    (∀ cc dd, occ = some cc → dds = [dd] → dd.tick = false →
        cc.params.timestamp < dd.params.timestamp →
        (CastLog.create cb occ dds).travelTime = dd.params.timestamp - cc.params.timestamp)
    ∧ (occ = none → (CastLog.create cb occ dds).travelTime = 0)
    ∧ ((CastLog.create cb occ dds).travelTime ≠ 0 →
        ∃ cc dd, occ = some cc ∧ dds = [dd] ∧ dd.tick = false ∧
          cc.params.timestamp < dd.params.timestamp ∧
          (CastLog.create cb occ dds).travelTime = dd.params.timestamp - cc.params.timestamp) := by
  refine ⟨?_, ?_, ?_⟩
  · intro cc dd h1 h2 h3 h4
    subst h1; subst h2
    simp [CastLog.create, castLogTravel, h3, h4]
  · intro h1
    subst h1
    simp [CastLog.create, castLogTravel]
  · intro hne
    rcases occ with _ | cc
    · exact absurd (by simp [CastLog.create, castLogTravel]) hne
    · rcases dds with _ | ⟨dd, _ | ⟨dd2, rest⟩⟩
      · exact absurd (by simp [CastLog.create, castLogTravel]) hne
      · by_cases hcond : cc.params.timestamp < dd.params.timestamp ∧ dd.tick = false
        · exact ⟨cc, dd, rfl, rfl, hcond.2, hcond.1,
            by simp [CastLog.create, castLogTravel, hcond.1, hcond.2]⟩
        · refine absurd ?_ hne
          rcases Decidable.not_and_iff_or_not.mp hcond with h | h
          · simp [CastLog.create, castLogTravel, h]
          · have : dd.tick = true := by
              cases htick : dd.tick
              · exact absurd htick h
              · rfl
            simp [CastLog.create, castLogTravel, this]
      · exact absurd (by simp [CastLog.create, castLogTravel]) hne

/-- Witness for C6 at a concrete completed single-hit cast. -/
theorem castLog_travelTime_spec_witness :
    (CastLog.create (demoCastBegan 0 0 demoA) (some (demoCastCompleted 1 10 demoA))
        [demoDamage 2 12 (some demoA) 5 false]).travelTime = (12 : Rat) - 10 :=
  (castLog_travelTime_spec (demoCastBegan 0 0 demoA) (some (demoCastCompleted 1 10 demoA))
      [demoDamage 2 12 (some demoA) 5 false]).1
    (demoCastCompleted 1 10 demoA) (demoDamage 2 12 (some demoA) 5 false)
    rfl rfl (by decide) (by decide)

/-! ## Claim C10: header fallbacks of CastLog -/

/-- C10: the CastLog header takes actionId from the completion whenever
that is non-null, spellSchool and threat from the completion whenever
those are non-null and nonzero, and falls back to the begin event's
values otherwise — including when there is no completion at all. -/
theorem castLog_header_fallback (cb : CastBeganLog) (occ : Option CastCompletedLog)
    (dds : List DamageDealtLog) :
    (∀ cc a, occ = some cc → cc.params.actionId = some a →
        (CastLog.create cb occ dds).params.actionId = some a)
    ∧ (∀ cc, occ = some cc → cc.params.actionId = none →
        (CastLog.create cb occ dds).params.actionId = cb.params.actionId)
    ∧ (occ = none → (CastLog.create cb occ dds).params.actionId = cb.params.actionId)
    ∧ (∀ cc v, occ = some cc → cc.params.spellSchool = some v → v ≠ 0 →
        (CastLog.create cb occ dds).params.spellSchool = some v)
    ∧ (∀ cc, occ = some cc →
        (cc.params.spellSchool = none ∨ cc.params.spellSchool = some 0) →
        (CastLog.create cb occ dds).params.spellSchool = cb.params.spellSchool)
    ∧ (occ = none → (CastLog.create cb occ dds).params.spellSchool = cb.params.spellSchool)
    ∧ (∀ cc, occ = some cc → cc.params.threat ≠ 0 →
        (CastLog.create cb occ dds).params.threat = cc.params.threat)
    ∧ (∀ cc, occ = some cc → cc.params.threat = 0 →
        (CastLog.create cb occ dds).params.threat = cb.params.threat)
    ∧ (occ = none → (CastLog.create cb occ dds).params.threat = cb.params.threat) := by
  refine ⟨?_, ?_, ?_, ?_, ?_, ?_, ?_, ?_, ?_⟩
  · intro cc a h1 h2; subst h1; simp [CastLog.create, jsOrOption, h2]
  · intro cc h1 h2; subst h1; simp [CastLog.create, jsOrOption, h2]
  · intro h1; subst h1; simp [CastLog.create, jsOrOption]
  · intro cc v h1 h2 h3; subst h1; simp [CastLog.create, jsOrNumOption, h2, h3]
  · intro cc h1 h2
    subst h1
    rcases h2 with h2 | h2 <;> simp [CastLog.create, jsOrNumOption, h2]
  · intro h1; subst h1; simp [CastLog.create, jsOrNumOption]
  · intro cc h1 h2; subst h1; simp [CastLog.create, jsOrThreat, h2]
  · intro cc h1 h2; subst h1; simp [CastLog.create, jsOrThreat, h2]
  · intro h1; subst h1; simp [CastLog.create, jsOrThreat]

/-- Witness for C10: a completion with a present actionId, spellSchool
0 and threat 0 — the identity is taken from the completion, school and
threat fall back to the begin event. -/
theorem castLog_header_fallback_witness :
    ((CastLog.create
        { params := demoParams "cb" 0 0 (some demoA) (some 3), manaCost := 10, castTime := 2,
          effectiveTime := 2 }
        (some ⟨demoParams "cc" 1 4 (some demoB) (some 0)⟩) []).params.actionId = some demoB)
    ∧ ((CastLog.create
        { params := demoParams "cb" 0 0 (some demoA) (some 3), manaCost := 10, castTime := 2,
          effectiveTime := 2 }
        (some ⟨demoParams "cc" 1 4 (some demoB) (some 0)⟩) []).params.spellSchool = some 3) := by
  constructor
  · exact (castLog_header_fallback _ _ _).1 ⟨demoParams "cc" 1 4 (some demoB) (some 0)⟩ demoB
      rfl rfl
  · exact (castLog_header_fallback _ _ _).2.2.2.2.1 ⟨demoParams "cc" 1 4 (some demoB) (some 0)⟩
      rfl (Or.inr rfl)

/-! ## Claim C2: per-bucket cast pairing and damage attribution -/

/-- On a sorted list, taking while below a bound is filtering below it. -/
theorem takeWhile_lt_sorted {α : Type} (ts : α → Rat) (c : Rat) :
    ∀ (l : List α), List.Pairwise (fun a b => ts a ≤ ts b) l →
      l.takeWhile (fun d => ts d < c) = l.filter (fun d => ts d < c) := by
  intro l
  induction l with
  | nil => intro _; rfl
  | cons x xs ih =>
      intro h
      rcases List.pairwise_cons.mp h with ⟨hx, hxs⟩
      by_cases hlt : ts x < c
      · simp only [List.takeWhile_cons, List.filter_cons, decide_eq_true hlt, if_pos rfl,
          ite_true, ih hxs]
      · have hnil : xs.filter (fun d => decide (ts d < c)) = [] := by
          refine List.filter_eq_nil_iff.mpr ?_
          intro y hy
          exact fun hdec => hlt (lt_of_le_of_lt (hx y hy) (of_decide_eq_true hdec))
        simp only [List.takeWhile_cons, decide_eq_false hlt, List.filter_cons]
        simp [hnil]

/-- On a sorted list, dropping while below a bound is filtering at or
above it. -/
theorem dropWhile_lt_sorted {α : Type} (ts : α → Rat) (c : Rat) :
    ∀ (l : List α), List.Pairwise (fun a b => ts a ≤ ts b) l →
      l.dropWhile (fun d => ts d < c) = l.filter (fun d => c ≤ ts d) := by
  intro l
  induction l with
  | nil => intro _; rfl
  | cons x xs ih =>
      intro h
      rcases List.pairwise_cons.mp h with ⟨hx, hxs⟩
      by_cases hlt : ts x < c
      · have : ¬ c ≤ ts x := not_le.mpr hlt
        simp only [List.dropWhile_cons, decide_eq_true hlt, ite_true, ih hxs,
          List.filter_cons, decide_eq_false this]
        simp
      · have hge : c ≤ ts x := not_lt.mp hlt
        have hself : xs.filter (fun d => decide (c ≤ ts d)) = xs := by
          refine List.filter_eq_self.mpr ?_
          intro y hy
          exact decide_eq_true (le_trans hge (hx y hy))
        simp only [List.dropWhile_cons, decide_eq_false hlt, List.filter_cons,
          decide_eq_true hge]
        simp [hself]

/-- Filtering at a higher lower bound absorbs a filter at a lower one. -/
theorem filter_ge_absorb {α : Type} (ts : α → Rat) (c1 c2 : Rat) (h : c1 ≤ c2) (l : List α) :
    (l.filter (fun d => c1 ≤ ts d)).filter (fun d => c2 ≤ ts d) =
      l.filter (fun d => c2 ≤ ts d) := by
  rw [List.filter_filter]
  refine List.filter_congr ?_
  intro d _
  by_cases hd : c2 ≤ ts d
  · simp [hd, le_trans h hd]
  · simp [hd]

/-- Filtering below an upper bound after a lower-bound filter is the
two-sided filter. -/
theorem filter_lt_after_ge {α : Type} (ts : α → Rat) (c1 c2 : Rat) (l : List α) :
    (l.filter (fun d => c1 ≤ ts d)).filter (fun d => ts d < c2) =
      l.filter (fun d => c1 ≤ ts d ∧ ts d < c2) := by
  rw [List.filter_filter]
  refine List.filter_congr ?_
  intro d _
  by_cases h1 : c1 ≤ ts d <;> by_cases h2 : ts d < c2 <;> simp [h1, h2]

/-- Adjacent present entries of a sorted list are ordered. -/
theorem getElem?_sorted_le {α : Type} (ts : α → Rat) (l : List α)
    (h : List.Pairwise (fun a b => ts a ≤ ts b) l) (i j : Nat) (hij : i < j)
    (x y : α) (hx : l[i]? = some x) (hy : l[j]? = some y) : ts x ≤ ts y := by
  rcases List.getElem?_eq_some_iff.mp hx with ⟨hi, hxe⟩
  rcases List.getElem?_eq_some_iff.mp hy with ⟨hj, hye⟩
  have := List.pairwise_iff_getElem.mp h i j hi hj hij
  rw [hxe, hye] at this
  exact this

/-- A list with no i-th entry has no (i+1)-th entry. -/
theorem getElem?_none_succ {α : Type} (l : List α) (i : Nat) (h : l[i]? = none) :
    l[i + 1]? = none := by
  rw [List.getElem?_eq_none_iff] at h ⊢
  omega

/-- The damage-consuming step transforms the loop state exactly as the
amended attribution specification prescribes. -/
theorem castTakeDamage_spec (completed : List CastCompletedLog) (dd : List DamageDealtLog)
    (i : Nat)
    (hdd : List.Pairwise (fun a b => a.params.timestamp ≤ b.params.timestamp) dd)
    (hcc : List.Pairwise (fun a b => a.params.timestamp ≤ b.params.timestamp) completed) :
    castTakeDamage completed[i + 1]? (castStateFilter completed dd i) =
      (specAttributedDamage completed dd i, castStateFilter completed dd (i + 1)) := by
  have hstSorted : List.Pairwise (fun a b => a.params.timestamp ≤ b.params.timestamp)
      (castStateFilter completed dd i) := by
    unfold castStateFilter
    by_cases hi : i = 0
    · simpa [hi] using hdd
    · simp only [if_neg hi]
      cases completed[i]? with
      | none => exact List.Pairwise.nil
      | some cc => exact hdd.sublist (List.filter_sublist _)
  cases hnext : completed[i + 1]? with
  | none =>
      simp only [castTakeDamage]
      unfold specAttributedDamage castStateFilter
      simp only [hnext]
      by_cases hi : i = 0
      · simp [hi]
      · simp only [if_neg hi, Nat.succ_ne_zero, ite_false]
  | some next =>
      simp only [castTakeDamage]
      rw [takeWhile_lt_sorted _ _ _ hstSorted, dropWhile_lt_sorted _ _ _ hstSorted]
      by_cases hi : i = 0
      · subst hi
        unfold castStateFilter specAttributedDamage
        simp [hnext]
      · rcases hcur : completed[i]? with _ | cc
        · exact absurd hnext (by simp [getElem?_none_succ _ _ hcur])
        · have hle : cc.params.timestamp ≤ next.params.timestamp :=
            getElem?_sorted_le _ completed hcc i (i + 1) (by omega) cc next hcur hnext
          unfold castStateFilter specAttributedDamage
          simp only [if_neg hi, hcur, hnext, Nat.succ_ne_zero, ite_false]
          rw [filter_lt_after_ge, filter_ge_absorb _ _ _ hle]

/-- The per-bucket loop, started at index i with the corresponding
remaining-damage state: one CastLog per began event, the i-th began
positionally paired with the i-th completed (none past the end) and
carrying the amended attribution. -/
theorem castBucketGo_spec (completed : List CastCompletedLog) (dd : List DamageDealtLog)
    (hdd : List.Pairwise (fun a b => a.params.timestamp ≤ b.params.timestamp) dd)
    (hcc : List.Pairwise (fun a b => a.params.timestamp ≤ b.params.timestamp) completed) :
    ∀ (bs : List CastBeganLog) (i : Nat),
      (castBucketGo completed bs i (castStateFilter completed dd i)).length = bs.length
      ∧ ∀ j c, (castBucketGo completed bs i (castStateFilter completed dd i))[j]? = some c →
          bs[j]? = some c.castBeganLog ∧ c.castCompletedLog = completed[i + j]?
          ∧ c.damageDealtLogs = specAttributedDamage completed dd (i + j) := by
  intro bs
  induction bs with
  | nil =>
      intro i
      refine ⟨rfl, ?_⟩
      intro j c h
      simp [castBucketGo] at h
  | cons cb rest ih =>
      intro i
      have hstep := castTakeDamage_spec completed dd i hdd hcc
      simp only [castBucketGo, hstep]
      refine ⟨?_, ?_⟩
      · simpa using (ih (i + 1)).1
      · intro j c hc
        cases j with
        | zero =>
            simp only [List.getElem?_cons_zero, Option.some.injEq] at hc
            refine ⟨?_, ?_, ?_⟩
            · rw [← hc]
              simp [CastLog.create]
            · rw [← hc]
              simp [CastLog.create]
            · rw [← hc]
              simp [CastLog.create]
        | succ j' =>
            simp only [List.getElem?_cons_succ] at hc
            have hrec := (ih (i + 1)).2 j' c hc
            refine ⟨by simpa using hrec.1, ?_, ?_⟩
            · rw [hrec.2.1]
              congr 1
              omega
            · rw [hrec.2.2]
              congr 1
              omega

/-- C2 (amended): within each ability bucket, the i-th CastBegan is
paired with the i-th CastCompleted positionally, a trailing CastBegan
without a positional completion still yields a CastLog (with a null
completion), and — for timestamp-sorted bucket contents — the damage
attributed to a cast consists of the bucket's damage events before the
next completion that were not attributed to an earlier cast: the
half-open interval [thisCompletion, nextCompletion) for casts after
the first, all damage before nextCompletion (including any predating
its own completion) for the first cast, and all remaining damage when
no next completion exists (with nothing left for later unpaired
casts). -/
theorem castLog_processBucket_spec (began : List CastBeganLog)
    (completed : List CastCompletedLog) (dd : List DamageDealtLog)
    (hdd : List.Pairwise (fun a b => a.params.timestamp ≤ b.params.timestamp) dd)
    (hcc : List.Pairwise (fun a b => a.params.timestamp ≤ b.params.timestamp) completed) :
    (CastLog.processBucket began completed dd).length = began.length
    ∧ ∀ i c, (CastLog.processBucket began completed dd)[i]? = some c →
        began[i]? = some c.castBeganLog ∧ c.castCompletedLog = completed[i]?
        ∧ c.damageDealtLogs = specAttributedDamage completed dd i := by
  have h0 : castStateFilter completed dd 0 = dd := by simp [castStateFilter]
  have hmain := castBucketGo_spec completed dd hdd hcc began 0
  rw [h0] at hmain
  unfold CastLog.processBucket
  refine ⟨hmain.1, ?_⟩
  intro i c hc
  have h := hmain.2 i c hc
  simpa using h

/-- Counterexample to C2 as stated: a bucket whose first cast completes
at t=10 (next completion t=20) is attributed the damage event at t=5 —
outside [10, 20). -/
theorem castLog_interval_attribution_cex :
    ((CastLog.fromLogs
        [.castBegan (demoCastBegan 0 0 demoA),
         .damageDealt (demoDamage 1 5 (some demoA) 7 false),
         .castCompleted (demoCastCompleted 2 10 demoA),
         .castBegan (demoCastBegan 3 11 demoA),
         .castCompleted (demoCastCompleted 4 20 demoA)]).map
      (fun c => (c.params.timestamp, c.damageDealtLogs.map (fun d => d.params.timestamp))))
      = [(0, [5]), (11, [])]
    ∧ ¬ ((10 : Rat) ≤ 5) := ⟨by decide, by decide⟩

unseal Rat.add Rat.mul Rat.inv Rat.sub in
/-- Witness for C2's amended theorem on the counterexample bucket. -/
theorem castLog_processBucket_spec_witness :
    ((CastLog.processBucket [demoCastBegan 0 0 demoA, demoCastBegan 3 11 demoA]
        [demoCastCompleted 2 10 demoA, demoCastCompleted 4 20 demoA]
        [demoDamage 1 5 (some demoA) 7 false]).headD default).damageDealtLogs =
      specAttributedDamage [demoCastCompleted 2 10 demoA, demoCastCompleted 4 20 demoA]
        [demoDamage 1 5 (some demoA) 7 false] 0 := by
  have hspec := castLog_processBucket_spec
    [demoCastBegan 0 0 demoA, demoCastBegan 3 11 demoA]
    [demoCastCompleted 2 10 demoA, demoCastCompleted 4 20 demoA]
    [demoDamage 1 5 (some demoA) 7 false] (by decide) (by decide)
  exact (hspec.2 0 _ (by decide)).2.2

/-! ## Claim C7: DPS windowed aggregation -/

/-- A strict lower-bound filter at a higher cutoff absorbs one at a
lower cutoff. -/
theorem filter_gt_absorb {α : Type} (ts : α → Rat) (c1 c2 : Rat) (h : c1 ≤ c2) (l : List α) :
    (l.filter (fun d => c1 < ts d)).filter (fun d => c2 < ts d) =
      l.filter (fun d => c2 < ts d) := by
  rw [List.filter_filter]
  refine List.filter_congr ?_
  intro d _
  by_cases hd : c2 < ts d
  · simp [hd, lt_of_le_of_lt h hd]
  · simp [hd]

/-- The eviction scan on a sorted queue whose running total is the sum
of its amounts: it returns the strictly-in-window suffix and its sum. -/
theorem dpsEvict_sorted (c : Rat) :
    ∀ (l : List DamageDealtLog) (total : Rat),
      List.Pairwise (fun a b => a.params.timestamp ≤ b.params.timestamp) l →
      total = (l.map (fun d => d.amount)).sum →
      dpsEvict c l total =
        (l.filter (fun d => c < d.params.timestamp),
         ((l.filter (fun d => c < d.params.timestamp)).map (fun d => d.amount)).sum) := by
  intro l
  induction l with
  | nil =>
      intro total _ ht
      simp [dpsEvict, ht]
  | cons x xs ih =>
      intro total hp ht
      rcases List.pairwise_cons.mp hp with ⟨hx, hxs⟩
      by_cases hc : c < x.params.timestamp
      · have hall : xs.filter (fun d => decide (c < d.params.timestamp)) = xs :=
          List.filter_eq_self.mpr (fun y hy => decide_eq_true (lt_of_lt_of_le hc (hx y hy)))
        simp only [dpsEvict, if_pos hc, List.filter_cons, decide_eq_true hc, ite_true]
        simp [hall, ht]
      · have ht' : total - x.amount = (xs.map (fun d => d.amount)).sum := by
          rw [ht]
          simp only [List.map_cons, List.sum_cons]
          ring
        simp only [dpsEvict, if_neg hc]
        rw [ih (total - x.amount) hxs ht']
        simp [List.filter_cons, hc]

/-- Invariant proof for the per-group DPS loop: with a queue that is a
sublist of the processed prefix carrying the right filtered views and
running sum, each emitted entry's dps is the windowed sum over the
whole input divided by the window length. -/
theorem dpsGo_spec :
    ∀ (gs : List (List DamageDealtLog)) (P queue : List DamageDealtLog) (total : Rat),
      List.Pairwise (fun a b => a.params.timestamp ≤ b.params.timestamp) (P ++ gs.flatten) →
      StrictGroups (fun d => d.params.timestamp) gs →
      queue.Sublist P →
      (∀ g' ∈ gs,
        P.filter (fun d =>
            groupHeadTs (fun d => d.params.timestamp) g' - DpsLog.DPS_WINDOW <
              d.params.timestamp) =
        queue.filter (fun d =>
            groupHeadTs (fun d => d.params.timestamp) g' - DpsLog.DPS_WINDOW <
              d.params.timestamp)) →
      total = (queue.map (fun d => d.amount)).sum →
      (dpsGo gs queue total).length = gs.length
      ∧ ∀ (i : Nat) (l : DpsLog), (dpsGo gs queue total)[i]? = some l →
          ∃ g, gs[i]? = some g ∧ l.damageLogs = g
            ∧ l.params.timestamp = groupHeadTs (fun d => d.params.timestamp) g
            ∧ l.dps = (((P ++ gs.flatten).filter (fun d =>
                  groupHeadTs (fun d => d.params.timestamp) g - DpsLog.DPS_WINDOW <
                    d.params.timestamp ∧
                  d.params.timestamp ≤ groupHeadTs (fun d => d.params.timestamp) g)).map
                    (fun d => d.amount)).sum / DpsLog.DPS_WINDOW := by
  intro gs
  induction gs with
  | nil =>
      intro P queue total _ _ _ _ _
      refine ⟨rfl, ?_⟩
      intro i l h
      simp [dpsGo] at h
  | cons g gs' ih =>
      intro P queue total hsorted hstrict hsub hq htot
      obtain ⟨⟨hgne, hguni⟩, hglt, hsg'⟩ := hstrict
      rcases hg : g with _ | ⟨ghead, gtail⟩
      · exact absurd hg hgne
      subst hg
      have hheadts : groupHeadTs (fun d => d.params.timestamp) (ghead :: gtail) =
          ghead.params.timestamp := rfl
      have hglt' : ∀ x ∈ gs'.flatten, ghead.params.timestamp < x.params.timestamp := by
        intro x hx
        simpa [groupHeadTs] using hglt x hx
      have hguni' : ∀ x ∈ ghead :: gtail, x.params.timestamp = ghead.params.timestamp := by
        intro x hx
        simpa [groupHeadTs] using hguni x hx
      have hW : (0 : Rat) < DpsLog.DPS_WINDOW := by norm_num [DpsLog.DPS_WINDOW]
      have hq1 : List.Pairwise (fun a b => a.params.timestamp ≤ b.params.timestamp)
          (queue ++ ghead :: gtail) := by
        refine hsorted.sublist ?_
        refine (hsub.append_right _).trans ?_
        rw [List.flatten_cons, ← List.append_assoc]
        exact List.sublist_append_left _ _
      have htot1 : total + (((ghead :: gtail).map (fun d => d.amount)).sum) =
          ((queue ++ ghead :: gtail).map (fun d => d.amount)).sum := by
        rw [List.map_append, List.sum_append, htot]
      have hev := dpsEvict_sorted (ghead.params.timestamp - DpsLog.DPS_WINDOW)
        (queue ++ ghead :: gtail)
        (total + (((ghead :: gtail).map (fun d => d.amount)).sum)) hq1 htot1
      have hPle : ∀ x ∈ P, x.params.timestamp ≤ ghead.params.timestamp := by
        intro x hx
        exact (List.pairwise_append.mp hsorted).2.2 x hx ghead (by simp)
      have hgfull : ∀ x ∈ ghead :: gtail,
          ghead.params.timestamp - DpsLog.DPS_WINDOW < x.params.timestamp ∧
          x.params.timestamp ≤ ghead.params.timestamp := by
        intro x hx
        rw [hguni' x hx]
        exact ⟨by linarith, le_refl _⟩
      have hgkeep : (ghead :: gtail).filter
          (fun d => ghead.params.timestamp - DpsLog.DPS_WINDOW < d.params.timestamp) =
          ghead :: gtail :=
        List.filter_eq_self.mpr (fun x hx => decide_eq_true (hgfull x hx).1)
      have hqP : (queue ++ ghead :: gtail).filter
          (fun d => ghead.params.timestamp - DpsLog.DPS_WINDOW < d.params.timestamp) =
          P.filter (fun d =>
            ghead.params.timestamp - DpsLog.DPS_WINDOW < d.params.timestamp) ++
            ghead :: gtail := by
        rw [List.filter_append, hgkeep]
        have hq0 := hq (ghead :: gtail) (List.mem_cons_self _ _)
        rw [hheadts] at hq0
        rw [← hq0]
      have hfull : (P ++ List.flatten ((ghead :: gtail) :: gs')).filter (fun d =>
            ghead.params.timestamp - DpsLog.DPS_WINDOW < d.params.timestamp ∧
            d.params.timestamp ≤ ghead.params.timestamp) =
          P.filter (fun d =>
            ghead.params.timestamp - DpsLog.DPS_WINDOW < d.params.timestamp) ++
            ghead :: gtail := by
        rw [List.flatten_cons, ← List.append_assoc, List.filter_append, List.filter_append]
        have p1 : P.filter (fun d => decide (
              ghead.params.timestamp - DpsLog.DPS_WINDOW < d.params.timestamp ∧
              d.params.timestamp ≤ ghead.params.timestamp)) =
            P.filter (fun d =>
              decide (ghead.params.timestamp - DpsLog.DPS_WINDOW < d.params.timestamp)) := by
          refine List.filter_congr ?_
          intro d hd
          have := hPle d hd
          by_cases hcd : ghead.params.timestamp - DpsLog.DPS_WINDOW < d.params.timestamp <;>
            simp [hcd, this]
        have p2 : (ghead :: gtail).filter (fun d => decide (
              ghead.params.timestamp - DpsLog.DPS_WINDOW < d.params.timestamp ∧
              d.params.timestamp ≤ ghead.params.timestamp)) = ghead :: gtail :=
          List.filter_eq_self.mpr (fun x hx => decide_eq_true (hgfull x hx))
        have p3 : gs'.flatten.filter (fun d => decide (
              ghead.params.timestamp - DpsLog.DPS_WINDOW < d.params.timestamp ∧
              d.params.timestamp ≤ ghead.params.timestamp)) = [] := by
          refine List.filter_eq_nil_iff.mpr ?_
          intro x hx
          have hx' := hglt' x hx
          exact fun hdec => absurd (of_decide_eq_true hdec).2 (not_le.mpr hx')
        rw [p1, p2, p3, List.append_nil]
      have IH := ih (P ++ ghead :: gtail)
        ((queue ++ ghead :: gtail).filter
          (fun d => ghead.params.timestamp - DpsLog.DPS_WINDOW < d.params.timestamp))
        (((queue ++ ghead :: gtail).filter
          (fun d => ghead.params.timestamp - DpsLog.DPS_WINDOW < d.params.timestamp)).map
            (fun d => d.amount)).sum
        (by rwa [List.append_assoc, ← List.flatten_cons])
        hsg'
        ((List.filter_sublist _).trans (hsub.append_right _))
        (by
          intro g' hg'
          have hg'ne := (StrictGroups.mem_good hsg' g' hg').1
          rcases hg'' : g' with _ | ⟨g'head, g'tail⟩
          · exact absurd hg'' hg'ne
          subst hg''
          have hmem : g'head ∈ gs'.flatten :=
            List.mem_flatten.mpr ⟨g'head :: g'tail, hg', by simp⟩
          simp only [groupHeadTs]
          have hcle : ghead.params.timestamp - DpsLog.DPS_WINDOW ≤
              g'head.params.timestamp - DpsLog.DPS_WINDOW := by
            have := hglt' g'head hmem
            linarith
          rw [filter_gt_absorb _ _ _ hcle, List.filter_append, List.filter_append]
          congr 1
          have hqg' := hq (g'head :: g'tail) (List.mem_cons_of_mem _ hg')
          simpa [groupHeadTs] using hqg')
        rfl
      simp only [dpsGo, List.headD_cons, hev]
      refine ⟨by simpa using IH.1, ?_⟩
      intro i l hl
      cases i with
      | zero =>
          simp only [List.getElem?_cons_zero, Option.some.injEq] at hl
          refine ⟨ghead :: gtail, by simp, ?_, ?_, ?_⟩
          · rw [← hl]
          · rw [← hl]
            rfl
          · rw [← hl]
            simp only [hheadts, hfull, hqP]
      | succ j =>
          simp only [List.getElem?_cons_succ] at hl
          obtain ⟨g2, hg2, hdl, hts2, hdps2⟩ := IH.2 j l hl
          refine ⟨g2, by simpa using hg2, hdl, hts2, ?_⟩
          rw [hdps2, List.flatten_cons, ← List.append_assoc]

/-- C7: DpsLog.fromLogs emits one DpsLog per simultaneous-timestamp
group (carrying that group and its head timestamp), and — for
timestamp-sorted input — each entry's dps is the sum of the amounts of
the damage events whose timestamp lies strictly inside the trailing
15-unit window, divided by the window length 15 (so an empty window
yields sum 0 and dps 0, never a 0/0); an empty input yields no
entries. -/
theorem dpsLog_fromLogs_windowed (dd : List DamageDealtLog)
    (hdd : List.Pairwise (fun a b => a.params.timestamp ≤ b.params.timestamp) dd) :
    (DpsLog.fromLogs dd).length
        = (SimLog.groupDuplicateTimestamps (fun d => d.params.timestamp) dd).length
    ∧ (∀ (i : Nat) (l : DpsLog), (DpsLog.fromLogs dd)[i]? = some l →
        (∃ g, (SimLog.groupDuplicateTimestamps (fun d => d.params.timestamp) dd)[i]? = some g ∧
          l.damageLogs = g ∧
          l.params.timestamp = groupHeadTs (fun d => d.params.timestamp) g)
        ∧ l.dps = (((dd.filter (fun d =>
              l.params.timestamp - DpsLog.DPS_WINDOW < d.params.timestamp ∧
              d.params.timestamp ≤ l.params.timestamp)).map (fun d => d.amount)).sum)
            / DpsLog.DPS_WINDOW)
    ∧ DpsLog.fromLogs [] = [] := by
  have hflat := groupSpanF_flatten (fun d => d.params.timestamp) dd
  have hstrict := groupSpanF_strict (fun d => d.params.timestamp) dd hdd
  have hmain := dpsGo_spec (groupSpanF (fun d => d.params.timestamp) dd) [] [] 0
    (by rw [List.nil_append, hflat]; exact hdd)
    hstrict (List.nil_sublist _) (by intro g' _; rfl) rfl
  have hfrom : DpsLog.fromLogs dd =
      dpsGo (groupSpanF (fun d => d.params.timestamp) dd) [] 0 := by
    unfold DpsLog.fromLogs
    rw [groupDuplicateTimestamps_eq_span]
  refine ⟨?_, ?_, rfl⟩
  · rw [hfrom, groupDuplicateTimestamps_eq_span]
    exact hmain.1
  · intro i l hl
    rw [hfrom] at hl
    obtain ⟨g, hgi, hdl, hts, hdps⟩ := hmain.2 i l hl
    refine ⟨⟨g, by rw [groupDuplicateTimestamps_eq_span]; exact hgi, hdl, hts⟩, ?_⟩
    rw [hdps, hts]
    rw [List.nil_append, hflat]

unseal Rat.add Rat.mul Rat.inv Rat.sub in
/-- Witness for C7: a single damage event of amount 150 at t=0 yields
dps exactly 10. -/
theorem dpsLog_fromLogs_windowed_witness :
    ((DpsLog.fromLogs [demoDamage 0 0 none 150 false]).headD default).dps = 10 := by
  have h := dpsLog_fromLogs_windowed [demoDamage 0 0 none 150 false] (by decide)
  have h2 := (h.2.1 0 ((DpsLog.fromLogs [demoDamage 0 0 none 150 false]).headD default)
    (by decide)).2
  rw [h2]
  decide

/-! ## Claim C8: resource-change grouping -/

/-- C8: for each resource type, ResourceChangedLogGroup.fromLogs
partitions that type's ResourceChanged events into maximal runs of
equal timestamp and emits exactly one group per run, whose valueBefore
is the run's first event's valueBefore, whose valueAfter is the run's
last event's valueAfter, and whose maxValue is the running maximum of
the events' totals starting at 0 — in particular two simultaneous gain
events collapse into one group whose valueAfter is the second event's
valueAfter. -/
theorem resourceGroup_fromLogs_spec (logs : List SimLog) (rt : Nat) :
    ((ResourceChangedLogGroup.fromLogs logs rt).length =
        (SimLog.groupDuplicateTimestamps (fun l => l.params.timestamp)
          (((logs.filterMap SimLog.asResourceChanged).filter
            (fun l => l.resourceType = rt)))).length)
    ∧ ((SimLog.groupDuplicateTimestamps (fun l => l.params.timestamp)
          (((logs.filterMap SimLog.asResourceChanged).filter
            (fun l => l.resourceType = rt)))).flatten =
        (logs.filterMap SimLog.asResourceChanged).filter (fun l => l.resourceType = rt))
    ∧ (∀ (i : Nat) (grp : ResourceChangedLogGroup),
        (ResourceChangedLogGroup.fromLogs logs rt)[i]? = some grp →
        ∃ g, (SimLog.groupDuplicateTimestamps (fun l => l.params.timestamp)
                (((logs.filterMap SimLog.asResourceChanged).filter
                  (fun l => l.resourceType = rt))))[i]? = some g
          ∧ g ≠ [] ∧ (∀ x ∈ g, x.params.timestamp = grp.params.timestamp)
          ∧ grp.logs = g
          ∧ grp.resourceType = rt
          ∧ grp.valueBefore = (g.headD default).valueBefore
          ∧ grp.valueAfter = (g.getLastD default).valueAfter
          ∧ grp.maxValue = maxResource g)
    ∧ ((ResourceChangedLogGroup.fromLogs
          [.resourceChanged (demoResource 0 1 100 105 0),
           .resourceChanged (demoResource 1 1 105 110 200),
           .resourceChanged (demoResource 2 4 110 90 0)] 1).map
        (fun g => (g.params.timestamp, g.valueBefore, g.valueAfter, g.maxValue, g.logs.length))
        = [(1, 100, 110, 200, 2), (4, 110, 90, 0, 1)]) := by
  refine ⟨by simp [ResourceChangedLogGroup.fromLogs], ?_, ?_, by decide⟩
  · rw [groupDuplicateTimestamps_eq_span]
    exact groupSpanF_flatten _ _
  · intro i grp hgrp
    have hmap : (ResourceChangedLogGroup.fromLogs logs rt)[i]? =
        ((SimLog.groupDuplicateTimestamps (fun l => l.params.timestamp)
          (((logs.filterMap SimLog.asResourceChanged).filter
            (fun l => l.resourceType = rt))))[i]?).map
          (ResourceChangedLogGroup.ofGroup rt) := by
      unfold ResourceChangedLogGroup.fromLogs
      exact List.getElem?_map _ _ _
    rw [hmap] at hgrp
    cases hgi : (SimLog.groupDuplicateTimestamps (fun l => l.params.timestamp)
        (((logs.filterMap SimLog.asResourceChanged).filter
          (fun l => l.resourceType = rt))))[i]? with
    | none => rw [hgi] at hgrp; exact absurd hgrp (by simp)
    | some g =>
        rw [hgi] at hgrp
        have hgrp' : ResourceChangedLogGroup.ofGroup rt g = grp := by simpa using hgrp
        have hmem : g ∈ SimLog.groupDuplicateTimestamps (fun l => l.params.timestamp)
            (((logs.filterMap SimLog.asResourceChanged).filter
              (fun l => l.resourceType = rt))) := by
          exact List.getElem?_mem hgi
        have hgood := by
          rw [groupDuplicateTimestamps_eq_span] at hmem
          exact groupSpanF_good _ _ g hmem
        refine ⟨g, rfl, hgood.1, ?_, ?_, ?_, ?_, ?_, ?_⟩
        · intro x hx
          rw [← hgrp']
          rcases g with _ | ⟨g0, grest⟩
          · exact absurd rfl hgood.1
          · have := hgood.2 x hx
            simpa [groupHeadTs, ResourceChangedLogGroup.ofGroup] using this
        · rw [← hgrp']
          rfl
        · rw [← hgrp']
          rfl
        · rw [← hgrp']
          rfl
        · rw [← hgrp']
          rfl
        · rw [← hgrp']
          rfl

/-- Witness for C8: the head group of the concrete two-gains example,
via the general clause. -/
theorem resourceGroup_fromLogs_spec_witness :
    ∃ g, (SimLog.groupDuplicateTimestamps (fun l => l.params.timestamp)
            ((([(.resourceChanged (demoResource 0 1 100 105 0)),
                (.resourceChanged (demoResource 1 1 105 110 200))] :
                  List SimLog).filterMap SimLog.asResourceChanged).filter
              (fun l => l.resourceType = 1)))[0]? = some g
      ∧ g ≠ [] ∧ (∀ x ∈ g, x.params.timestamp =
          (((ResourceChangedLogGroup.fromLogs
            [.resourceChanged (demoResource 0 1 100 105 0),
             .resourceChanged (demoResource 1 1 105 110 200)] 1).headD default)).params.timestamp)
      ∧ (((ResourceChangedLogGroup.fromLogs
            [.resourceChanged (demoResource 0 1 100 105 0),
             .resourceChanged (demoResource 1 1 105 110 200)] 1).headD default)).logs = g
      ∧ (((ResourceChangedLogGroup.fromLogs
            [.resourceChanged (demoResource 0 1 100 105 0),
             .resourceChanged (demoResource 1 1 105 110 200)] 1).headD default)).resourceType = 1
      ∧ (((ResourceChangedLogGroup.fromLogs
            [.resourceChanged (demoResource 0 1 100 105 0),
             .resourceChanged (demoResource 1 1 105 110 200)] 1).headD default)).valueBefore =
          (g.headD default).valueBefore
      ∧ (((ResourceChangedLogGroup.fromLogs
            [.resourceChanged (demoResource 0 1 100 105 0),
             .resourceChanged (demoResource 1 1 105 110 200)] 1).headD default)).valueAfter =
          (g.getLastD default).valueAfter
      ∧ (((ResourceChangedLogGroup.fromLogs
            [.resourceChanged (demoResource 0 1 100 105 0),
             .resourceChanged (demoResource 1 1 105 110 200)] 1).headD default)).maxValue =
          maxResource g :=
  (resourceGroup_fromLogs_spec
    [.resourceChanged (demoResource 0 1 100 105 0),
     .resourceChanged (demoResource 1 1 105 110 200)] 1).2.2.1 0 _ (by decide)

/-! ## Claim C1: batch parsing preserves line order -/

/-- DamageDealtLog.parse only rewrites the header's actionId. -/
theorem ddParse_logIndex (rv : Resolver) (params : SimLogParams) (l : SimLog)
    (h : DamageDealtLog.parse rv params = some l) : l.params.logIndex = params.logIndex := by
  unfold DamageDealtLog.parse at h
  cases hs : ddSearch params.raw.data with
  | none => rw [hs] at h; exact absurd h (by simp)
  | some m =>
      rcases m with ⟨cause, t⟩
      rw [hs] at h
      simp only [Option.some.injEq] at h
      rw [← h]
      rfl

/-- ResourceChangedLog.parse only rewrites the header's actionId. -/
theorem rcParse_logIndex (rv : Resolver) (s2rt : ResourceNamer) (params : SimLogParams)
    (l : SimLog) (h : ResourceChangedLog.parse rv s2rt params = some l) :
    l.params.logIndex = params.logIndex := by
  unfold ResourceChangedLog.parse at h
  cases hs : searchMap rcAt params.raw.data with
  | none => rw [hs] at h; exact absurd h (by simp)
  | some m =>
      rw [hs] at h
      simp only [Option.some.injEq] at h
      rw [← h]
      rfl

/-- AuraEventLog.parse only rewrites the header's actionId. -/
theorem aeParse_logIndex (rv : Resolver) (params : SimLogParams) (l : SimLog)
    (h : AuraEventLog.parse rv params = some l) : l.params.logIndex = params.logIndex := by
  unfold AuraEventLog.parse at h
  cases hs : searchMap aeAt params.raw.data with
  | none => rw [hs] at h; exact absurd h (by simp)
  | some m =>
      rcases m with ⟨event, label⟩
      simp only [hs] at h
      by_cases he : label.isEmpty
      · rw [if_pos he] at h
        exact absurd h (by simp)
      · rw [if_neg he] at h
        simp only [Option.some.injEq] at h
        rw [← h]
        rfl

/-- AuraStacksChangeLog.parse only rewrites the header's actionId. -/
theorem ascParse_logIndex (rv : Resolver) (params : SimLogParams) (l : SimLog)
    (h : AuraStacksChangeLog.parse rv params = some l) : l.params.logIndex = params.logIndex := by
  unfold AuraStacksChangeLog.parse at h
  cases hs : ascGo [] none params.raw.data with
  | none => rw [hs] at h; exact absurd h (by simp)
  | some m =>
      rcases m with ⟨label, o, n⟩
      simp only [hs] at h
      by_cases he : label.isEmpty
      · rw [if_pos he] at h
        exact absurd h (by simp)
      · rw [if_neg he] at h
        simp only [Option.some.injEq] at h
        rw [← h]
        rfl

/-- MajorCooldownUsedLog.parse only rewrites the header's actionId. -/
theorem mcuParse_logIndex (rv : Resolver) (params : SimLogParams) (l : SimLog)
    (h : MajorCooldownUsedLog.parse rv params = some l) : l.params.logIndex = params.logIndex := by
  unfold MajorCooldownUsedLog.parse at h
  cases hs : searchMap (fun s => expectLit "Major cooldown used: ".data s) params.raw.data with
  | none => rw [hs] at h; exact absurd h (by simp)
  | some label =>
      rw [hs] at h
      simp only [Option.some.injEq] at h
      rw [← h]
      rfl

/-- CastBeganLog.parse only rewrites the header's actionId. -/
theorem cbParse_logIndex (rv : Resolver) (params : SimLogParams) (l : SimLog)
    (h : CastBeganLog.parse rv params = some l) : l.params.logIndex = params.logIndex := by
  unfold CastBeganLog.parse at h
  cases hs : searchMap cbAt params.raw.data with
  | none => rw [hs] at h; exact absurd h (by simp)
  | some m =>
      rcases m with ⟨label, t⟩
      rw [hs] at h
      simp only [Option.some.injEq] at h
      rw [← h]
      rfl

/-- CastCompletedLog.parse only rewrites the header's actionId. -/
theorem ccParse_logIndex (rv : Resolver) (params : SimLogParams) (l : SimLog)
    (h : CastCompletedLog.parse rv params = some l) : l.params.logIndex = params.logIndex := by
  unfold CastCompletedLog.parse at h
  cases hs : searchMap (fun s => expectLit "Completed cast ".data s) params.raw.data with
  | none => rw [hs] at h; exact absurd h (by simp)
  | some label =>
      rw [hs] at h
      simp only [Option.some.injEq] at h
      rw [← h]
      rfl

/-- StatChangeLog.parse only rewrites the header's actionId. -/
theorem scParse_logIndex (rv : Resolver) (params : SimLogParams) (l : SimLog)
    (h : StatChangeLog.parse rv params = some l) : l.params.logIndex = params.logIndex := by
  unfold StatChangeLog.parse at h
  cases hs : searchMap scAt params.raw.data with
  | none => rw [hs] at h; exact absurd h (by simp)
  | some m =>
      rcases m with ⟨isGain, inner, fading, label⟩
      rw [hs] at h
      simp only [Option.some.injEq] at h
      rw [← h]
      rfl

/-- The priority chain never touches the header's logIndex. -/
theorem classifyKind_logIndex (rv : Resolver) (s2rt : ResourceNamer) (params : SimLogParams) :
    (SimLog.classifyKind rv s2rt params).params.logIndex = params.logIndex := by
  unfold SimLog.classifyKind
  cases h1 : DamageDealtLog.parse rv params with
  | some l => exact ddParse_logIndex rv params l h1
  | none =>
  cases h2 : ResourceChangedLog.parse rv s2rt params with
  | some l => exact rcParse_logIndex rv s2rt params l h2
  | none =>
  cases h3 : AuraEventLog.parse rv params with
  | some l => exact aeParse_logIndex rv params l h3
  | none =>
  cases h4 : AuraStacksChangeLog.parse rv params with
  | some l => exact ascParse_logIndex rv params l h4
  | none =>
  cases h5 : MajorCooldownUsedLog.parse rv params with
  | some l => exact mcuParse_logIndex rv params l h5
  | none =>
  cases h6 : CastBeganLog.parse rv params with
  | some l => exact cbParse_logIndex rv params l h6
  | none =>
  cases h7 : CastCompletedLog.parse rv params with
  | some l => exact ccParse_logIndex rv params l h7
  | none =>
  cases h8 : StatChangeLog.parse rv params with
  | some l => exact scParse_logIndex rv params l h8
  | none => rfl

/-- The per-line classifier stamps the given line index into the
produced event, whatever the line's content and however identity
resolution behaves. -/
theorem parseLine_logIndex (rv : Resolver) (s2rt : ResourceNamer) (lineIndex : Nat)
    (line : List Char) :
    (SimLog.parseLine rv s2rt lineIndex line).params.logIndex = lineIndex := by
  unfold SimLog.parseLine
  rcases h1 : spellSchoolSearch line with _ | n <;>
    rcases h2 : threatSearch line with _ | ⟨pre, t⟩ <;>
      simp only [h1, h2] <;>
        split <;>
          first
            | rfl
            | rw [classifyKind_logIndex]

/-- Length of the index-stamped map. -/
theorem mapWithIndexFrom_length {α β : Type} (f : Nat → α → β) :
    ∀ (l : List α) (i : Nat), (mapWithIndexFrom f i l).length = l.length := by
  intro l
  induction l with
  | nil => intro i; rfl
  | cons a rest ih => intro i; simp [mapWithIndexFrom, ih]

/-- Entries of the index-stamped map. -/
theorem mapWithIndexFrom_getElem? {α β : Type} (f : Nat → α → β) :
    ∀ (l : List α) (i j : Nat), (mapWithIndexFrom f i l)[j]? = l[j]?.map (f (i + j)) := by
  intro l
  induction l with
  | nil => intro i j; simp [mapWithIndexFrom]
  | cons a rest ih =>
      intro i j
      cases j with
      | zero => simp [mapWithIndexFrom]
      | succ j' =>
          have harith : i + 1 + j' = i + (j' + 1) := by omega
          simp only [mapWithIndexFrom, List.getElem?_cons_succ]
          rw [ih (i + 1) j', harith]

/-- C1: for any input blob and any behaviour of the identity-resolution
adapter, SimLog.parseAll yields exactly one event per newline-separated
line, the i-th event carries logIndex i, and hence the logIndex
sequence is strictly increasing in input-line order.  Asynchrony is
modelled out: Promise.all joins the per-line futures positionally, so
the batch is this index-keyed map regardless of per-line completion
order. -/
theorem simLog_parseAll_order (rv : Resolver) (s2rt : ResourceNamer) (logsText : String) :
    (SimLog.parseAll rv s2rt logsText).length = (splitLines logsText.data).length
    ∧ (∀ (i : Nat) (l : SimLog), (SimLog.parseAll rv s2rt logsText)[i]? = some l →
        l.params.logIndex = i)
    ∧ (∀ (i j : Nat) (li lj : SimLog), i < j →
        (SimLog.parseAll rv s2rt logsText)[i]? = some li →
        (SimLog.parseAll rv s2rt logsText)[j]? = some lj →
        li.params.logIndex < lj.params.logIndex) := by
  have hget : ∀ (i : Nat) (l : SimLog), (SimLog.parseAll rv s2rt logsText)[i]? = some l →
      l.params.logIndex = i := by
    intro i l hl
    unfold SimLog.parseAll at hl
    rw [mapWithIndexFrom_getElem?] at hl
    cases hline : (splitLines logsText.data)[i]? with
    | none => rw [hline] at hl; exact absurd hl (by simp)
    | some line =>
        rw [hline] at hl
        simp only [Option.map_some', Option.some.injEq] at hl
        rw [← hl, parseLine_logIndex]
        omega
  refine ⟨?_, hget, ?_⟩
  · unfold SimLog.parseAll
    exact mapWithIndexFrom_length _ _ _
  · intro i j li lj hij hi hj
    rw [hget i li hi, hget j lj hj]
    exact hij

/-- Witness for C1 on a concrete two-line blob. -/
theorem simLog_parseAll_order_witness :
    (SimLog.parseAll demoResolver demoNamer "a\nb").length = 2
    ∧ ((SimLog.parseAll demoResolver demoNamer "a\nb").headD default).params.logIndex = 0 := by
  constructor
  · exact (simLog_parseAll_order demoResolver demoNamer "a\nb").1.trans (by decide)
  · exact (simLog_parseAll_order demoResolver demoNamer "a\nb").2.1 0 _ (by decide)

/-! ## Claim C9: generic fallback -/

unseal Rat.add Rat.mul Rat.inv Rat.sub in
/-- Counterexample to C9 as stated: the timestamp pattern is not
anchored to the start of the line, so the line x [1.00] — which has no
leading bracketed timestamp — still gets timestamp 1, not 0.  (It does
fall back to exactly one generic event preserving the raw text.) -/
theorem parseAll_unanchored_timestamp_cex :
    timestampAt "x [1.00]".data = none
    ∧ ((SimLog.parseAll demoResolver demoNamer "x [1.00]").map
        (fun l => (l.params.timestamp, l.params.raw))) = [(1, "x [1.00]")]
    ∧ (1 : Rat) ≠ 0 := ⟨by decide, by decide, by decide⟩

/-- C9 (amended): if no bracketed-decimal timestamp occurs anywhere in
the (threat-truncated) line, the classifier emits exactly one generic
event with timestamp 0 and no source or target (spell school and
threat still carry whatever the suffix scans found); and whenever the
eight kind patterns all fail to match, the classifier emits a generic
event preserving the raw text and every header field.  Neither case
aborts or drops the line. -/
theorem parseLine_generic_fallback (rv : Resolver) (s2rt : ResourceNamer) :
    (∀ (lineIndex : Nat) (line : List Char),
      timestampSearch (match threatSearch line with
        | some p => p.1
        | none => line) = none →
      SimLog.parseLine rv s2rt lineIndex line = SimLog.generic
        { raw := line.asString, logIndex := lineIndex, timestamp := 0, source := none,
          target := none, actionId := none,
          spellSchool := spellSchoolSearch line,
          threat := match threatSearch line with
            | some p => p.2
            | none => 0 })
    ∧ (∀ params : SimLogParams,
        DamageDealtLog.parse rv params = none →
        ResourceChangedLog.parse rv s2rt params = none →
        AuraEventLog.parse rv params = none →
        AuraStacksChangeLog.parse rv params = none →
        MajorCooldownUsedLog.parse rv params = none →
        CastBeganLog.parse rv params = none →
        CastCompletedLog.parse rv params = none →
        StatChangeLog.parse rv params = none →
        SimLog.classifyKind rv s2rt params = SimLog.generic params) := by
  constructor
  · intro lineIndex line hts
    rcases h1 : spellSchoolSearch line with _ | n <;>
      rcases h2 : threatSearch line with _ | ⟨pre, t⟩ <;>
        simp only [h2] at hts <;>
          simp only [SimLog.parseLine, h1, h2, hts]
  · intro params h1 h2 h3 h4 h5 h6 h7 h8
    unfold SimLog.classifyKind
    rw [h1, h2, h3, h4, h5, h6, h7, h8]

unseal Rat.add Rat.mul Rat.inv Rat.sub in
/-- Witness for C9: a line with no timestamp, entities or known pattern
becomes a single generic event with zeroed header fields. -/
theorem parseLine_generic_fallback_witness :
    timestampSearch (match threatSearch "hello".data with
      | some p => p.1
      | none => "hello".data) = none
    ∧ SimLog.parseLine demoResolver demoNamer 0 "hello".data = SimLog.generic
        { raw := "hello", logIndex := 0, timestamp := 0, source := none,
          target := none, actionId := none, spellSchool := none, threat := 0 } :=
  ⟨by decide, by
    rw [(parseLine_generic_fallback demoResolver demoNamer).1 0 "hello".data (by decide)]
    decide⟩
